import Mathlib

/-!
# Design-pattern demos: Composite, Flyweight, Proxy, Iterator, Chain of Responsibility, Facade

A shallow embedding of `src/Structural/Composite.cpp`, `src/Structural/Flyweight.cpp`,
`src/Structural/Proxy.cpp`, `src/Behavioral/Iterator.cpp`,
`src/Behavioral/ChainOfResponsibility.cpp` and `src/Structural/Facade.cpp`, followed by
theorems about the embedded code.

Conventions of the embedding.

* A C++ `int` is an `Int`; every `int` addition of the source goes through `addInt`,
  which reduces the exact result to the 32-bit two's-complement range.
* An object reached through an owning pointer is a value; a member function takes the
  receiver and returns the receiver as the call left it.
* Console output is a list of structured events.
* A loop whose number of iterations is not fixed by its text takes a bound on its
  iterations and yields `none` when the bound does not suffice.
-/

namespace Demo1

/-! ## C++ `int` -/

/-- Smallest value of a 32-bit `int`. -/
def INT_MIN : Int := -2147483648

/-- Largest value of a 32-bit `int`. -/
def INT_MAX : Int := 2147483647

/-- Reduction of an exact integer to the 32-bit two's-complement range. -/
def wrapInt (x : Int) : Int := (x + 2147483648) % 4294967296 - 2147483648

/-- The `+` of two `int` operands. -/
def addInt (a b : Int) : Int := wrapInt (a + b)

/-- Membership in the range of `int`. -/
def IsInt (x : Int) : Prop := INT_MIN ≤ x ∧ x ≤ INT_MAX

instance (x : Int) : Decidable (IsInt x) := by unfold IsInt; infer_instance

/-! ## Composite.cpp -/

/-- Class `Exception`: the message given to its constructor. -/
structure Exception where
  _message : String
  deriving DecidableEq, Repr

/-- Objects of the `Equipment` hierarchy. `floppyDisk` is the leaf class `FloppyDisk`,
which inherits every member function of `Equipment`; `compositeEquipment` is
`CompositeEquipment` (and its subclass `Chassis`, which adds nothing), whose
`_equipment` list owns the children. -/
inductive Equipment where
  | floppyDisk (_id : Int) (_name : String) (_price : Int)
  | compositeEquipment (_id : Int) (_name : String) (_price : Int)
      (_equipment : List Equipment)
  deriving Repr

namespace Equipment

/-- Constructor `FloppyDisk::FloppyDisk(id, name, price)`. -/
def FloppyDisk (id : Int) (name : String) (price : Int) : Equipment :=
  floppyDisk id name price

/-- Constructor `Chassis::Chassis(id, name, price)`: a composite without children. -/
def Chassis (id : Int) (name : String) (price : Int) : Equipment :=
  compositeEquipment id name price []

/-- `Equipment::getId`. -/
def getId : Equipment → Int
  | floppyDisk id _ _ => id
  | compositeEquipment id _ _ _ => id

/-- The member `_name`. -/
def name : Equipment → String
  | floppyDisk _ n _ => n
  | compositeEquipment _ n _ _ => n

/-- The member `_price`. -/
def price : Equipment → Int
  | floppyDisk _ _ p => p
  | compositeEquipment _ _ p _ => p

/-- The member `_equipment` of a composite; a leaf has no such member. -/
def children : Equipment → List Equipment
  | floppyDisk _ _ _ => []
  | compositeEquipment _ _ _ cs => cs

/-- Whether the dynamic type is `CompositeEquipment` (or `Chassis`). -/
def isComposite : Equipment → Bool
  | floppyDisk _ _ _ => false
  | compositeEquipment _ _ _ _ => true

mutual
/-- `Equipment::getNetPrice` (leaf) and `CompositeEquipment::getNetPrice`: the base
class returns `_price`; the composite starts `totalPrice` at `Equipment::getNetPrice()`
and runs the loop over `_equipment`. What the call writes to `std::cout` is
`getNetPriceOut`. -/
def getNetPrice : Equipment → Int
  | floppyDisk _ _ p => p
  | compositeEquipment _ _ p cs => getNetPriceLoop p cs
/-- The `for` loop of `CompositeEquipment::getNetPrice`:
`totalPrice = totalPrice + (*it)->getNetPrice()` for each child, front to back. -/
def getNetPriceLoop : Int → List Equipment → Int
  | totalPrice, [] => totalPrice
  | totalPrice, c :: cs => getNetPriceLoop (addInt totalPrice (getNetPrice c)) cs
end

/-- Lines the Composite demo writes to `std::cout`. -/
inductive CompositeEvent where
  /-- The line "Destroying object" of `Equipment::~Equipment`. -/
  | destroyingObject
  /-- The line "CompositeEquipment Destructor called". -/
  | compositeDestructorCalled
  /-- The line "CompositeEquipment details.Id:<id> Name:<name>". -/
  | compositeDetails (id : Int) (name : String)
  /-- The line "Successfully removed element with Id:<id> Name:<name>". -/
  | removed (id : Int) (name : String)
  /-- The text "Composite equipment size is:<n>" of `CompositeEquipment::getNetPrice`. -/
  | compositeSize (n : Nat)
  deriving DecidableEq, Repr

mutual
/-- What `getNetPrice` writes to `std::cout`: nothing for a leaf; for a composite the
size of `_equipment`, then what the calls on the children write, in list order. -/
def getNetPriceOut : Equipment → List CompositeEvent
  | floppyDisk _ _ _ => []
  | compositeEquipment _ _ _ cs => CompositeEvent.compositeSize cs.length :: getNetPriceOutAll cs
/-- What the `for` loop of `CompositeEquipment::getNetPrice` writes. -/
def getNetPriceOutAll : List Equipment → List CompositeEvent
  | [] => []
  | c :: cs => getNetPriceOut c ++ getNetPriceOutAll cs
end

/-- How a member-function call ended. -/
inductive Completion where
  /-- The call returned to its caller. -/
  | returned
  /-- The call left through `throw`. -/
  | threw (e : Exception)
  /-- The call evaluated `++it` on a `std::list` iterator whose element it had erased;
  the iterator is invalid from the `erase` on and the increment has no defined
  behaviour, so nothing is said about what follows. -/
  | invalidatedIterator
  /-- The call evaluated `equipment->getId()` on a null `equipment`. -/
  | nullDereference
  deriving DecidableEq, Repr

/-- Result of a call of a member function of an `Equipment` object: how it ended, the
receiver as the call left it (for `invalidatedIterator`: as it was when the invalid
increment was reached), and the lines written. -/
structure Call where
  completion : Completion
  self : Equipment
  out : List CompositeEvent

/-- `Equipment::getName(std::string& name)`, whose body is `_name.assign(name)`: the
receiver after the call, and the argument string after the call. -/
def getName (self : Equipment) (name : String) : Equipment × String :=
  match self with
  | floppyDisk id _ p => (floppyDisk id name p, name)
  | compositeEquipment id _ p cs => (compositeEquipment id name p cs, name)

mutual
/-- The effect of `delete p`: a leaf runs `~Equipment`; a composite runs the body of
`~CompositeEquipment`, which deletes every child in list order, and then `~Equipment`. -/
def destroy : Equipment → List CompositeEvent
  | floppyDisk _ _ _ => [CompositeEvent.destroyingObject]
  | compositeEquipment id n _ cs =>
      [CompositeEvent.compositeDestructorCalled, CompositeEvent.compositeDetails id n]
        ++ destroyAll cs ++ [CompositeEvent.destroyingObject]
/-- The `for` loop of `~CompositeEquipment`: `delete (*it)` for each child. -/
def destroyAll : List Equipment → List CompositeEvent
  | [] => []
  | c :: cs => destroy c ++ destroyAll cs
end

/-- `Equipment::add` (inherited unchanged by the leaf) and `CompositeEquipment::add`:
the leaf throws; the composite does `_equipment.push_back(equipment)`. -/
def add (self : Equipment) (equipment : Equipment) : Call :=
  match self with
  | floppyDisk _ _ _ =>
      { completion := .threw ⟨"Cannot add elements to leaf"⟩, self := self, out := [] }
  | compositeEquipment id n p cs =>
      { completion := .returned, self := compositeEquipment id n p (cs ++ [equipment]),
        out := [] }

/-- The `for` loop of `CompositeEquipment::remove`. `before` holds the children the
iterator has passed, the second list the children from `it` to `end()`. At a child
with the wanted id the body calls `getName` on it with the empty local
`equipmentName`, writes the line, deletes the child and erases its list node; the loop
header then increments the erased iterator. Result: how the loop ended, the list
`_equipment` at that point, and the lines written. -/
def removeLoop (id : Int) :
    List Equipment → List Equipment → Completion × List Equipment × List CompositeEvent
  | before, [] => (.returned, before, [])
  | before, x :: rest =>
      if id = x.getId then
        let named := x.getName ""
        (.invalidatedIterator, before ++ rest,
          CompositeEvent.removed named.1.getId named.2 :: destroy named.1)
      else removeLoop id (before ++ [x]) rest

/-- `Equipment::remove` (inherited unchanged by the leaf) and
`CompositeEquipment::remove`: the leaf throws; the composite reads
`equipment->getId()` and runs the loop over `_equipment`. -/
def remove (self : Equipment) (equipment : Equipment) : Call :=
  match self with
  | floppyDisk _ _ _ =>
      { completion := .threw ⟨"Cannot remove elements from leaf"⟩, self := self, out := [] }
  | compositeEquipment id n p cs =>
      let r := removeLoop equipment.getId [] cs
      { completion := r.1, self := compositeEquipment id n p r.2.1, out := r.2.2 }

/-- `remove` with its argument as the pointer the caller passes, `none` for a null
pointer: `Equipment::remove` throws without looking at the argument,
`CompositeEquipment::remove` begins with `equipment->getId()`. -/
def removePtr (self : Equipment) (equipment : Option Equipment) : Call :=
  match equipment with
  | some e => self.remove e
  | none =>
      match self with
      | floppyDisk _ _ _ =>
          { completion := .threw ⟨"Cannot remove elements from leaf"⟩, self := self,
            out := [] }
      | compositeEquipment _ _ _ _ =>
          { completion := .nullDereference, self := self, out := [] }

mutual
/-- Number of nodes of a tree. -/
def nodeCount : Equipment → Nat
  | floppyDisk _ _ _ => 1
  | compositeEquipment _ _ _ cs => 1 + nodeCountAll cs
/-- Number of nodes of a list of trees. -/
def nodeCountAll : List Equipment → Nat
  | [] => 0
  | c :: cs => nodeCount c + nodeCountAll cs
end

mutual
/-- Number of composite nodes of a tree. -/
def compositeCount : Equipment → Nat
  | floppyDisk _ _ _ => 0
  | compositeEquipment _ _ _ cs => 1 + compositeCountAll cs
/-- Number of composite nodes of a list of trees. -/
def compositeCountAll : List Equipment → Nat
  | [] => 0
  | c :: cs => compositeCount c + compositeCountAll cs
end

mutual
/-- Ids `_id` of all nodes of a tree, the root first, then the subtrees of the
children in list order. -/
def ids : Equipment → List Int
  | floppyDisk id _ _ => [id]
  | compositeEquipment id _ _ cs => id :: idsAll cs
/-- Ids of all nodes of a list of trees. -/
def idsAll : List Equipment → List Int
  | [] => []
  | c :: cs => ids c ++ idsAll cs
end

/-- Ids of the nodes of a tree that lie below its direct children. -/
def deeperIds (c : Equipment) : List Int :=
  (c.children.map fun x => idsAll x.children).flatten

mutual
/-- Own prices `_price` of all nodes of a tree, the root first, then the subtrees of
the children in list order. -/
def ownPrices : Equipment → List Int
  | floppyDisk _ _ p => [p]
  | compositeEquipment _ _ p cs => p :: ownPricesAll cs
/-- Own prices of all nodes of a list of trees. -/
def ownPricesAll : List Equipment → List Int
  | [] => []
  | c :: cs => ownPrices c ++ ownPricesAll cs
end

mutual
/-- All `_price` members of a tree hold values of type `int`. -/
def pricesAreInt : Equipment → Prop
  | floppyDisk _ _ p => IsInt p
  | compositeEquipment _ _ p cs => IsInt p ∧ pricesAreIntAll cs
/-- All `_price` members of a list of trees hold values of type `int`. -/
def pricesAreIntAll : List Equipment → Prop
  | [] => True
  | c :: cs => pricesAreInt c ∧ pricesAreIntAll cs
end

/-- The leaf `eq1` of `main`. -/
def eq1 : Equipment := FloppyDisk 1 "Floppy Disk1" 100

/-- The leaf `eq2` of `main`. -/
def eq2 : Equipment := FloppyDisk 2 "Floppy Disk2.1" 500

/-- The composite `eq3` of `main` after `eq3->add(eq1); eq3->add(eq2);`. -/
def eq3 : Equipment := (((Chassis 3 "Base Chassis1.0" 5000).add eq1).self.add eq2).self

/-- The leaf `eq4` of `main`. -/
def eq4 : Equipment := FloppyDisk 4 "Main Disk1" 1000

/-- The composite `eq5` of `main` after `eq5->add(eq3); eq5->add(eq4);`. -/
def eq5 : Equipment := (((Chassis 5 "Main Chassis2.1" 5000).add eq3).self.add eq4).self

end Equipment

/-! ## Flyweight.cpp -/

/-- Ways in which a call of the flyweight demo leaves defined behaviour. -/
inductive Fault where
  /-- `strcpy(_name, fileName)` writes past the end of `char _name[20]`. -/
  | nameBufferOverrun
  /-- `_icons[_numIcons] = ...` stores past the end of `Icon *_icons[MAX_ICONS]`. -/
  | iconsOutOfRange
  /-- `x + _width` or `y + _height` reads a member that no assignment has given a
  value. -/
  | uninitializedRead
  /-- A member function is called through an `Icon *` that is the address of no icon
  of the registry. -/
  | invalidPointer
  deriving DecidableEq, Repr

/-- Class `Icon`. `_name` is the string held in `char _name[20]`; `_width` and
`_height` are `none` as long as no assignment has given them a value. -/
structure Icon where
  _name : String
  _width : Option Int
  _height : Option Int
  deriving DecidableEq, Repr

namespace Icon

/-- Size of the member `char _name[20]`. -/
def NAME_SIZE : Nat := 20

/-- Constructor `Icon::Icon(char *fileName)`: `strcpy` into `_name` (the string and its
terminating zero byte must fit), then the four `if (!strcmp(fileName, ...))`
statements in order. -/
def new (fileName : String) : Except Fault Icon :=
  if NAME_SIZE < fileName.utf8ByteSize + 1 then .error .nameBufferOverrun
  else
    let i0 : Icon := { _name := fileName, _width := none, _height := none }
    let i1 := if fileName = "go" then { i0 with _width := some 20, _height := some 20 } else i0
    let i2 := if fileName = "stop" then { i1 with _width := some 40, _height := some 40 } else i1
    let i3 := if fileName = "select" then { i2 with _width := some 60, _height := some 60 } else i2
    let i4 := if fileName = "undo" then { i3 with _width := some 30, _height := some 30 } else i3
    .ok i4

/-- `Icon::getName`. -/
def getName (self : Icon) : String := self._name

end Icon

/-- Lines the Flyweight demo writes to `std::cout`. -/
inductive FlyweightEvent where
  /-- The line "   drawing <name>: upper left (<x>,<y>) - lower right (<x2>,<y2>)" of
  `Icon::draw`. -/
  | drawing (name : String) (x y x2 y2 : Int)
  deriving DecidableEq, Repr

namespace Icon

/-- `Icon::draw(int x, int y)`: the receiver after the call and the line written, with
`x + _width` and `y + _height` as the lower right corner. -/
def draw (self : Icon) (x y : Int) : Except Fault (Icon × FlyweightEvent) :=
  match self._width, self._height with
  | some w, some h =>
      .ok (self, FlyweightEvent.drawing self._name x y (addInt x w) (addInt y h))
  | _, _ => .error .uninitializedRead

/-- The value the member `_width` holds in an icon that was constructed in storage
whose bytes at `_width` held `storage`: the value the constructor assigned, or, when
it assigned none, what the storage held before. -/
def widthIn (self : Icon) (storage : Int) : Int := self._width.getD storage

/-- The value the member `_height` holds in an icon that was constructed in storage
whose bytes at `_height` held `storage`. -/
def heightIn (self : Icon) (storage : Int) : Int := self._height.getD storage

end Icon

/-- The static members of class `FlyweightFactory`: `_icons` lists the objects the
slots `_icons[0]`, ..., `_icons[_numIcons - 1]` point to, in slot order. Every `Icon`
is created by `getIcon` for the slot it stays in and is never deleted, so a pointer
`Icon *` handed out by the factory is identified by the index of its slot. -/
structure FlyweightFactory where
  _icons : List Icon
  deriving DecidableEq, Repr

namespace FlyweightFactory

/-- The enumerator `MAX_ICONS`. -/
def MAX_ICONS : Nat := 5

/-- The static member `_numIcons`. -/
def _numIcons (f : FlyweightFactory) : Nat := f._icons.length

/-- The registry at program start: `_numIcons = 0`. -/
def initial : FlyweightFactory := { _icons := [] }

/-- The lookup loop of `getIcon`, `for (int i = 0; i < _numIcons; i++)`, from slot `i`
on: the first slot whose icon's name equals `name` under `strcmp`. -/
def findIcon (name : String) : List Icon → Nat → Option Nat
  | [], _ => none
  | icon :: rest, i => if name = icon.getName then some i else findIcon name rest (i + 1)

/-- `FlyweightFactory::getIcon(char *name)`: the slot of the icon returned and the
registry after the call. When the lookup loop finds nothing, `new Icon(name)` runs
and its pointer is stored at index `_numIcons`, which must lie inside the array. -/
def getIcon (f : FlyweightFactory) (name : String) : Except Fault (Nat × FlyweightFactory) :=
  match findIcon name f._icons 0 with
  | some i => .ok (i, f)
  | none =>
      match Icon.new name with
      | .error e => .error e
      | .ok icon =>
          if f._numIcons < MAX_ICONS then
            .ok (f._numIcons, { _icons := f._icons ++ [icon] })
          else .error .iconsOutOfRange

/-- `FlyweightFactory::reportTheIcons`: the names written after "Active Flyweights: ",
slot by slot. -/
def reportTheIcons (f : FlyweightFactory) : List String :=
  f._icons.map Icon.getName

/-- A sequence of `getIcon` calls, one per key, in order, up to the first call that
leaves defined behaviour: the slots returned by the calls that returned, the registry
after the last of them, and the fault that ended the sequence, if any. -/
def getIcons : FlyweightFactory → List String → List Nat × FlyweightFactory × Option Fault
  | f, [] => ([], f, none)
  | f, name :: names =>
      match getIcon f name with
      | .error e => ([], f, some e)
      | .ok (i, f1) =>
          let r := getIcons f1 names
          (i :: r.1, r.2.1, r.2.2)

/-- The call `icon->draw(x, y)` through a pointer handed out by `getIcon`, the
pointer given as the slot of its icon: the registry after the call, with the receiver
as `Icon::draw` left it, and the line written. -/
def drawIcon (f : FlyweightFactory) (icon : Nat) (x y : Int) :
    Except Fault (FlyweightFactory × FlyweightEvent) :=
  match f._icons[icon]? with
  | none => .error .invalidPointer
  | some receiver =>
      match receiver.draw x y with
      | .error e => .error e
      | .ok (after, line) => .ok ({ _icons := f._icons.set icon after }, line)

/-- The request sequence with later repeats removed, in the words of the
specification: every key stays at the place of its first request. -/
def removeLaterRepeats : List String → List String
  | [] => []
  | k :: ks => k :: (removeLaterRepeats ks).filter fun k1 => decide (k1 ≠ k)

/-- Slot `i` of the registry holds an icon named `k`. -/
def SlotHolds (f : FlyweightFactory) (i : Nat) (k : String) : Prop :=
  ∃ x, f._icons[i]? = some x ∧ x.getName = k

/-- Every icon of the registry is what `Icon::Icon` builds from the icon's name. -/
def AllBuilt (f : FlyweightFactory) : Prop :=
  ∀ x ∈ f._icons, Icon.new x.getName = .ok x

/-- The keys of the six `getIcon` calls that the text of `main` lists, in the order of
the text. The calls are the arguments of two constructor calls, and the language does
not fix the order in which the three arguments of one call are evaluated; this list
is the sequence of a build that evaluates them from left to right, and a build that
evaluates them from right to left registers "select", "stop", "go", "undo". -/
def mainKeys : List String := ["go", "stop", "select", "select", "stop", "undo"]

end FlyweightFactory

/-! ## Proxy.cpp -/

/-- Lines the Proxy demo writes to `std::cout`. -/
inductive ProxyEvent where
  /-- The line "   $$ ctor: <id>" of `RealImage::RealImage`. -/
  | ctor (id : Int)
  /-- The line "   dtor: <id>" of `RealImage::~RealImage`. -/
  | dtor (id : Int)
  /-- The line "   drawing image <id>" of `RealImage::draw`. -/
  | drawing (id : Int)
  deriving DecidableEq, Repr

/-- Class `RealImage`. -/
structure RealImage where
  m_id : Int
  deriving DecidableEq, Repr

namespace RealImage

/-- Constructor `RealImage::RealImage(int i)`. -/
def new (i : Int) : RealImage × List ProxyEvent := ({ m_id := i }, [ProxyEvent.ctor i])

/-- `RealImage::draw`. -/
def draw (self : RealImage) : List ProxyEvent := [ProxyEvent.drawing self.m_id]

/-- Destructor `RealImage::~RealImage`. -/
def destroy (self : RealImage) : List ProxyEvent := [ProxyEvent.dtor self.m_id]

/-- The lines written by `n` consecutive calls of `RealImage::draw`. -/
def drawTimes (self : RealImage) : Nat → List ProxyEvent
  | 0 => []
  | n + 1 => self.draw ++ drawTimes self n

/-- Eager use: the lines written by constructing `RealImage(i)` and calling its
`draw` `n` times. -/
def eagerTrace (i : Int) (n : Nat) : List ProxyEvent :=
  (RealImage.new i).2 ++ (RealImage.new i).1.drawTimes n

end RealImage

/-- Class `Image`: `m_the_real_thing` is `none` for the null pointer. -/
structure Image where
  m_the_real_thing : Option RealImage
  m_id : Int
  deriving DecidableEq, Repr

namespace Image

/-- Initial value of the static member `Image::s_next`. -/
def s_next_initial : Int := 1

/-- Constructor `Image::Image()`, given the current value of the static `s_next`: the
new object and the value of `s_next` after `m_id = s_next++`. -/
def new (s_next : Int) : Image × Int :=
  ({ m_the_real_thing := none, m_id := s_next }, addInt s_next 1)

/-- `Image::draw`: the receiver after the call and the lines written. -/
def draw (self : Image) : Image × List ProxyEvent :=
  match self.m_the_real_thing with
  | none =>
      let r := RealImage.new self.m_id
      ({ self with m_the_real_thing := some r.1 }, r.2 ++ r.1.draw)
  | some real => (self, real.draw)

/-- Destructor `Image::~Image`: `delete m_the_real_thing`. -/
def destroy (self : Image) : List ProxyEvent :=
  match self.m_the_real_thing with
  | none => []
  | some real => real.destroy

/-- The receiver and the lines written after `n` consecutive calls of `draw`. -/
def drawTimes : Nat → Image → Image × List ProxyEvent
  | 0, self => (self, [])
  | n + 1, self =>
      let first := self.draw
      let more := drawTimes n first.1
      (more.1, first.2 ++ more.2)

/-- The objects built by `n` consecutive executions of `Image()`, in construction
order, and the value of `s_next` afterwards. -/
def construct : Nat → Int → List Image × Int
  | 0, s_next => ([], s_next)
  | n + 1, s_next =>
      let first := Image.new s_next
      let more := construct n first.2
      (first.1 :: more.1, more.2)

/-- Number of `RealImage` constructor lines in an output. -/
def ctorCount (out : List ProxyEvent) : Nat :=
  (out.filter fun e => match e with | ProxyEvent.ctor _ => true | _ => false).length

/-- Lazy use: the lines written by constructing a proxy that gets the identifier `i`
and calling its `draw` `n` times. -/
def lazyTrace (i : Int) (n : Nat) : List ProxyEvent :=
  (drawTimes n (Image.new i).1).2

/-- The lines of `RealImage::draw` in an output. -/
def drawOutputs (out : List ProxyEvent) : List ProxyEvent :=
  out.filter fun e => match e with | ProxyEvent.drawing _ => true | _ => false

/-- An output without its `RealImage` constructor lines. -/
def withoutCtor (out : List ProxyEvent) : List ProxyEvent :=
  out.filter fun e => match e with | ProxyEvent.ctor _ => false | _ => true

/-- The two states of a proxy. -/
inductive State where
  /-- `m_the_real_thing` is null. -/
  | Unloaded
  /-- `m_the_real_thing` points to the real image. -/
  | Loaded
  deriving DecidableEq, Repr

/-- The state a proxy is in. -/
def state (self : Image) : State :=
  match self.m_the_real_thing with
  | none => State.Unloaded
  | some _ => State.Loaded

/-- What the program can do while a proxy lives: call the one public member function
of the proxy, or execute `Image()` for another object, which touches the static
`s_next`. -/
inductive Operation where
  /-- A call of `draw()` on the proxy. -/
  | draw
  /-- A construction of another `Image`. -/
  | constructOther
  deriving DecidableEq, Repr

/-- One operation on a proxy and the static `s_next`. -/
def step (st : Image × Int) (op : Operation) : Image × Int :=
  match op with
  | Operation.draw => (st.1.draw.1, st.2)
  | Operation.constructOther => (st.1, (Image.new st.2).2)

/-- A sequence of operations, in order. -/
def run (st : Image × Int) (ops : List Operation) : Image × Int :=
  ops.foldl step st

end Image

/-! ## Iterator.cpp -/

/-- Ways in which a call of the iterator demo leaves defined behaviour. -/
inductive StackFault where
  /-- `items[i]` is read or written with `i` outside `0..9`. -/
  | itemsOutOfRange
  deriving DecidableEq, Repr

/-- Class `Stack`: the ten slots of `int items[10]`, in order, and `sp`. No constructor
writes `items`, so a slot that was never pushed to holds an unspecified value; the
list gives the values the slots hold, whatever they are. -/
structure Stack where
  items : List Int
  sp : Int
  deriving DecidableEq, Repr

/-- Class `StackIter`: `stk` is the stack the pointer `stk` refers to. -/
structure StackIter where
  stk : Stack
  index : Int
  deriving DecidableEq, Repr

namespace Stack

/-- Number of slots of `int items[10]`. -/
def ITEMS : Nat := 10

/-- Constructor `Stack::Stack()`, for storage whose ten slots hold `unwritten`:
`sp = -1`. -/
def new (unwritten : List Int) : Stack := { items := unwritten, sp := -1 }

/-- `Stack::push`, `items[++sp] = in`. -/
def push (self : Stack) (v : Int) : Except StackFault Stack :=
  if 0 ≤ addInt self.sp 1 ∧ (addInt self.sp 1).toNat < self.items.length then
    .ok { items := self.items.set (addInt self.sp 1).toNat v, sp := addInt self.sp 1 }
  else .error .itemsOutOfRange

/-- `Stack::pop`, `return items[sp--]`: the value returned and the stack after the
call. -/
def pop (self : Stack) : Except StackFault (Int × Stack) :=
  if 0 ≤ self.sp then
    match self.items[self.sp.toNat]? with
    | some v => .ok (v, { self with sp := addInt self.sp (-1) })
    | none => .error .itemsOutOfRange
  else .error .itemsOutOfRange

/-- `Stack::isEmpty`. -/
def isEmpty (self : Stack) : Bool := self.sp == -1

/-- `Stack::createIterator`, `new StackIter(this)`. The constructor of `StackIter` sets
`stk` only; `index` has no value until `first()` gives it one, and stands at 0 here. -/
def createIterator (self : Stack) : StackIter := { stk := self, index := 0 }

/-- A stack whose array has its ten slots and which holds between 0 and 10 elements. -/
def Valid (self : Stack) : Prop :=
  self.items.length = ITEMS ∧ -1 ≤ self.sp ∧ self.sp ≤ 9

instance (self : Stack) : Decidable self.Valid := by unfold Valid; infer_instance

end Stack

namespace StackIter

/-- `StackIter::first`. -/
def first (self : StackIter) : StackIter := { self with index := 0 }

/-- `StackIter::next`, `index++`. -/
def next (self : StackIter) : StackIter := { self with index := addInt self.index 1 }

/-- `StackIter::isDone`, `index == stk->sp + 1`. -/
def isDone (self : StackIter) : Bool := self.index == addInt self.stk.sp 1

/-- `StackIter::currentItem`, `stk->items[index]`. -/
def currentItem (self : StackIter) : Except StackFault Int :=
  if 0 ≤ self.index then
    match self.stk.items[self.index.toNat]? with
    | some v => .ok v
    | none => .error .itemsOutOfRange
  else .error .itemsOutOfRange

end StackIter

/-- The `for` loop of `operator==` from the test `!itl->isDone()` on, for at most
`fuel` evaluations of that test: the two iterators when the loop is left, through the
test or through `break`; `none` when `fuel` does not suffice. -/
def eqLoop : Nat → StackIter → StackIter → Option (Except StackFault (StackIter × StackIter))
  | 0, _, _ => none
  | fuel + 1, itl, itr =>
      if itl.isDone then some (.ok (itl, itr))
      else
        match itl.currentItem with
        | .error e => some (.error e)
        | .ok a =>
            match itr.currentItem with
            | .error e => some (.error e)
            | .ok b =>
                if a ≠ b then some (.ok (itl, itr))
                else eqLoop fuel itl.next itr.next

/-- `operator==(const Stack &l, const Stack &r)`, its loop run with `fuel`:
`ans = itl->isDone() && itr->isDone()`. -/
def operatorEq (fuel : Nat) (l r : Stack) : Option (Except StackFault Bool) :=
  match eqLoop fuel l.createIterator.first r.createIterator.first with
  | none => none
  | some (.error e) => some (.error e)
  | some (.ok (itl, itr)) => some (.ok (itl.isDone && itr.isDone))

/-- The stacks `s1`, `s2`, `s3`, `s4`, `s5` of `main` when the comparisons start, `s1`
built in storage whose slots hold `unwritten`: four pushes, four copies, then
`s3.pop()`, `s5.pop()`, `s4.push(2)`, `s5.push(9)`. -/
def mainStacks (unwritten : List Int) :
    Except StackFault (Stack × Stack × Stack × Stack × Stack) := do
  let a1 ← (Stack.new unwritten).push 1
  let a2 ← a1.push 2
  let a3 ← a2.push 3
  let s1 ← a3.push 4
  let s2 := s1
  let p3 ← s1.pop
  let p5 ← s1.pop
  let s4 ← s1.push 2
  let s5 ← p5.2.push 9
  pure (s1, s2, p3.2, s4, s5)

/-! ## ChainOfResponsibility.cpp -/

/-- What the chain demo writes to `std::cout`. -/
inductive HandlerEvent where
  /-- The text "H<n> passed <i>  ". -/
  | passed (n : Nat) (i : Int)
  /-- The line "H<n> handled <i>". -/
  | handled (n : Nat) (i : Int)
  deriving DecidableEq, Repr

/-- The dynamic class of a handler object. -/
inductive HandlerClass where
  | Base
  | Handler1
  | Handler2
  | Handler3
  deriving DecidableEq, Repr

/-- A handler object: its class and the object its member `next` points to, `none`
for the null pointer. -/
inductive Base where
  | mk (cls : HandlerClass) (next : Option Base)
  deriving Repr

/-- How a call of `handle` ended. -/
inductive HandleEnd where
  /-- The call returned. -/
  | returned
  /-- The call evaluated `next->handle(i)` with `next` null. -/
  | nullDereference
  deriving DecidableEq, Repr

namespace Base

/-- Constructor `Base::Base()` for an object of class `cls`: `next = 0`. -/
def new (cls : HandlerClass) : Base := mk cls none

/-- `Base::setNext`. -/
def setNext (self : Base) (n : Option Base) : Base :=
  match self with
  | mk cls _ => mk cls n

mutual
/-- The virtual `handle(int i)`: `Base::handle` forwards; `Handler1::handle`,
`Handler2::handle` and `Handler3::handle` handle their own number and otherwise write
that they pass and call `Base::handle`. The lines written and how the call ended. -/
def handle : Base → Int → List HandlerEvent × HandleEnd
  | mk HandlerClass.Base next, i => forward next i
  | mk HandlerClass.Handler1 next, i =>
      if 1 ≠ i then
        ((HandlerEvent.passed 1 i :: (forward next i).1), (forward next i).2)
      else ([HandlerEvent.handled 1 i], HandleEnd.returned)
  | mk HandlerClass.Handler2 next, i =>
      if 2 ≠ i then
        ((HandlerEvent.passed 2 i :: (forward next i).1), (forward next i).2)
      else ([HandlerEvent.handled 2 i], HandleEnd.returned)
  | mk HandlerClass.Handler3 next, i =>
      if 3 ≠ i then
        ((HandlerEvent.passed 3 i :: (forward next i).1), (forward next i).2)
      else ([HandlerEvent.handled 3 i], HandleEnd.returned)
/-- The body of `Base::handle`, `next->handle(i)`. -/
def forward : Option Base → Int → List HandlerEvent × HandleEnd
  | none, _ => ([], HandleEnd.nullDereference)
  | some n, i => handle n i
end

/-- The object `thr` of `main`. -/
def thr : Base := new HandlerClass.Handler3

/-- The object `two` of `main` after `two.setNext(&thr)`. -/
def two : Base := (new HandlerClass.Handler2).setNext (some thr)

/-- The object `root` of `main` after `root.setNext(&two)`, with `two` as it is when
`root.handle` is called. -/
def root : Base := (new HandlerClass.Handler1).setNext (some two)

end Base

/-! ## Facade.cpp -/

namespace FacilitiesDepartment

/-- The `enum States` of `FacilitiesDepartment`. -/
inductive States where
  | Received
  | AssignToEngineer
  | EngineerResearches
  | RequestIsNotPossible
  | EngineerLeavesCompany
  | AssignToNewEngineer
  | NewEngineerResearches
  | ReassignEngineer
  | EngineerReturns
  | EngineerResearchesAgain
  | EngineerFillsOutPaperWork
  | Complete
  deriving DecidableEq, Repr

/-- The value of an enumerator: its place in the enumeration, from 0. -/
def States.value (s : States) : Int := (s.toCtorIdx : Int)

end FacilitiesDepartment

/-- Class `FacilitiesDepartment`. -/
structure FacilitiesDepartment where
  _state : Int
  deriving DecidableEq, Repr

namespace FacilitiesDepartment

/-- `FacilitiesDepartment::submitNetworkRequest`. -/
def submitNetworkRequest (_self : FacilitiesDepartment) : FacilitiesDepartment :=
  { _state := 0 }

/-- `FacilitiesDepartment::checkOnStatus`: the value returned and the receiver after
the call. -/
def checkOnStatus (self : FacilitiesDepartment) : Bool × FacilitiesDepartment :=
  (decide (addInt self._state 1 = States.Complete.value), { _state := addInt self._state 1 })

end FacilitiesDepartment

namespace ElectricianUnion

/-- The `enum States` of `ElectricianUnion`. -/
inductive States where
  | Received
  | RejectTheForm
  | SizeTheJob
  | SmokeAndJokeBreak
  | WaitForAuthorization
  | DoTheWrongJob
  | BlameTheEngineer
  | WaitToPunchOut
  | DoHalfAJob
  | ComplainToEngineer
  | GetClarification
  | CompleteTheJob
  | TurnInThePaperwork
  | Complete
  deriving DecidableEq, Repr

/-- The value of an enumerator: its place in the enumeration, from 0. -/
def States.value (s : States) : Int := (s.toCtorIdx : Int)

end ElectricianUnion

/-- Class `ElectricianUnion`. -/
structure ElectricianUnion where
  _state : Int
  deriving DecidableEq, Repr

namespace ElectricianUnion

/-- `ElectricianUnion::submitNetworkRequest`. -/
def submitNetworkRequest (_self : ElectricianUnion) : ElectricianUnion := { _state := 0 }

/-- `ElectricianUnion::checkOnStatus`: the value returned and the receiver after the
call. -/
def checkOnStatus (self : ElectricianUnion) : Bool × ElectricianUnion :=
  (decide (addInt self._state 1 = States.Complete.value), { _state := addInt self._state 1 })

end ElectricianUnion

namespace MisDepartment

/-- The `enum States` of `MisDepartment`. -/
inductive States where
  | Received
  | DenyAllKnowledge
  | ReferClientToFacilities
  | FacilitiesHasNotSentPaperwork
  | ElectricianIsNotDone
  | ElectricianDidItWrong
  | DispatchTechnician
  | SignedOff
  | DoesNotWork
  | FixElectriciansWiring
  | Complete
  deriving DecidableEq, Repr

/-- The value of an enumerator: its place in the enumeration, from 0. -/
def States.value (s : States) : Int := (s.toCtorIdx : Int)

end MisDepartment

/-- Class `MisDepartment`. -/
structure MisDepartment where
  _state : Int
  deriving DecidableEq, Repr

namespace MisDepartment

/-- `MisDepartment::submitNetworkRequest`. -/
def submitNetworkRequest (_self : MisDepartment) : MisDepartment := { _state := 0 }

/-- `MisDepartment::checkOnStatus`: the value returned and the receiver after the
call. -/
def checkOnStatus (self : MisDepartment) : Bool × MisDepartment :=
  (decide (addInt self._state 1 = States.Complete.value), { _state := addInt self._state 1 })

end MisDepartment

/-- Lines the facade writes to `std::cout`, each with the value of `_count`. -/
inductive FacadeEvent where
  /-- The line "submitted to Facilities - <count> phone calls so far". -/
  | submittedToFacilities (count : Int)
  /-- The line "submitted to Electrician - <count> phone calls so far". -/
  | submittedToElectrician (count : Int)
  /-- The line "submitted to MIS - <count> phone calls so far". -/
  | submittedToMIS (count : Int)
  deriving DecidableEq, Repr

namespace FacilitiesFacade

/-- The `enum States` of `FacilitiesFacade`. -/
inductive States where
  | Received
  | SubmitToEngineer
  | SubmitToElectrician
  | SubmitToTechnician
  deriving DecidableEq, Repr

/-- The value of an enumerator: its place in the enumeration, from 0. -/
def States.value (s : States) : Int := (s.toCtorIdx : Int)

end FacilitiesFacade

/-- Class `FacilitiesFacade`. -/
structure FacilitiesFacade where
  _state : Int
  _count : Int
  _engineer : FacilitiesDepartment
  _electrician : ElectricianUnion
  _technician : MisDepartment
  deriving DecidableEq, Repr

namespace FacilitiesFacade

/-- Constructor `FacilitiesFacade::FacilitiesFacade()`: `_count = 0`. It writes no other
member; `state`, `engineer`, `electrician` and `technician` are the unspecified
values the members `_state` of the facade and of its three subsystems start with. -/
def new (state engineer electrician technician : Int) : FacilitiesFacade :=
  { _state := state, _count := 0, _engineer := { _state := engineer },
    _electrician := { _state := electrician }, _technician := { _state := technician } }

/-- `FacilitiesFacade::submitNetworkRequest`. -/
def submitNetworkRequest (self : FacilitiesFacade) : FacilitiesFacade :=
  { self with _state := 0 }

/-- `FacilitiesFacade::checkOnStatus`: the value returned, the receiver after the
call, and the line written, if any. -/
def checkOnStatus (self : FacilitiesFacade) : Bool × FacilitiesFacade × List FacadeEvent :=
  let count := addInt self._count 1
  if self._state = States.Received.value then
    (false,
      { self with _count := count, _state := addInt self._state 1,
                  _engineer := self._engineer.submitNetworkRequest },
      [FacadeEvent.submittedToFacilities count])
  else if self._state = States.SubmitToEngineer.value then
    if self._engineer.checkOnStatus.1 then
      (false,
        { self with _count := count, _engineer := self._engineer.checkOnStatus.2,
                    _state := addInt self._state 1,
                    _electrician := self._electrician.submitNetworkRequest },
        [FacadeEvent.submittedToElectrician count])
    else
      (false, { self with _count := count, _engineer := self._engineer.checkOnStatus.2 }, [])
  else if self._state = States.SubmitToElectrician.value then
    if self._electrician.checkOnStatus.1 then
      (false,
        { self with _count := count, _electrician := self._electrician.checkOnStatus.2,
                    _state := addInt self._state 1,
                    _technician := self._technician.submitNetworkRequest },
        [FacadeEvent.submittedToMIS count])
    else
      (false,
        { self with _count := count, _electrician := self._electrician.checkOnStatus.2 }, [])
  else if self._state = States.SubmitToTechnician.value then
    if self._technician.checkOnStatus.1 then
      (true, { self with _count := count, _technician := self._technician.checkOnStatus.2 },
        [])
    else
      (false, { self with _count := count, _technician := self._technician.checkOnStatus.2 },
        [])
  else (false, { self with _count := count }, [])

/-- `FacilitiesFacade::getNumberOfCalls`. -/
def getNumberOfCalls (self : FacilitiesFacade) : Int := self._count

/-- The values returned by `n` consecutive calls of `checkOnStatus`, in order, and the
receiver after them. -/
def checkTimes : Nat → FacilitiesFacade → List Bool × FacilitiesFacade
  | 0, self => ([], self)
  | n + 1, self =>
      match self.checkOnStatus with
      | (answer, after, _) =>
          match checkTimes n after with
          | (answers, last) => (answer :: answers, last)

/-- The loop `while (!facilities.checkOnStatus());` of `main` for at most `fuel` calls:
the facade when the loop is left and the lines written; `none` when `fuel` calls do
not end the loop. -/
def poll : Nat → FacilitiesFacade → Option (FacilitiesFacade × List FacadeEvent)
  | 0, _ => none
  | fuel + 1, self =>
      match self.checkOnStatus with
      | (true, after, out) => some (after, out)
      | (false, after, out) =>
          match poll fuel after with
          | none => none
          | some (last, more) => some (last, out ++ more)

end FacilitiesFacade

end Demo1

/-! # Theorems -/

namespace Demo1

/-! ## `int` arithmetic -/

theorem wrapInt_isInt (x : Int) : IsInt (wrapInt x) := by
  unfold IsInt wrapInt INT_MIN INT_MAX
  omega

theorem wrapInt_of_isInt {x : Int} (h : IsInt x) : wrapInt x = x := by
  unfold IsInt INT_MIN INT_MAX at h
  unfold wrapInt
  omega

theorem wrapInt_add_wrapInt (a b : Int) : wrapInt (a + wrapInt b) = wrapInt (a + b) := by
  unfold wrapInt
  omega

theorem wrapInt_wrapInt_add (a b : Int) : wrapInt (wrapInt a + b) = wrapInt (a + b) := by
  unfold wrapInt
  omega

theorem addInt_assoc (a b c : Int) : addInt (addInt a b) c = addInt a (addInt b c) := by
  unfold addInt
  rw [wrapInt_wrapInt_add, wrapInt_add_wrapInt, Int.add_assoc]

theorem addInt_foldl (a b : Int) (l : List Int) :
    addInt a (l.foldl addInt b) = l.foldl addInt (addInt a b) := by
  induction l generalizing b with
  | nil => rfl
  | cons x xs ih => simp only [List.foldl_cons]; rw [ih, addInt_assoc]

theorem foldl_addInt_of_isInt (l : List Int) (a : Int) (h : IsInt a) :
    l.foldl addInt a = wrapInt (a + l.sum) := by
  induction l generalizing a with
  | nil => simp [wrapInt_of_isInt h]
  | cons x xs ih =>
      simp only [List.foldl_cons, List.sum_cons]
      have hx : IsInt (addInt a x) := wrapInt_isInt _
      rw [ih _ hx, addInt, wrapInt_wrapInt_add, Int.add_assoc]

namespace Equipment

/-! ## Composite: the price of a tree -/

mutual
theorem addInt_getNetPrice (t : Equipment) (total : Int) :
    addInt total t.getNetPrice = t.ownPrices.foldl addInt total := by
  cases t with
  | floppyDisk id n p => simp [getNetPrice, ownPrices]
  | compositeEquipment id n p cs =>
      simp only [getNetPrice, ownPrices, List.foldl_cons]
      rw [getNetPriceLoop_eq_foldl cs p, addInt_foldl]
theorem getNetPriceLoop_eq_foldl (cs : List Equipment) (total : Int) :
    getNetPriceLoop total cs = (ownPricesAll cs).foldl addInt total := by
  cases cs with
  | nil => simp [getNetPriceLoop, ownPricesAll]
  | cons c cs =>
      simp only [getNetPriceLoop, ownPricesAll, List.foldl_append]
      rw [addInt_getNetPrice c total, getNetPriceLoop_eq_foldl cs]
end

theorem getNetPrice_eq_foldl_ownPrices (t : Equipment) :
    t.getNetPrice = (ownPricesAll t.children).foldl addInt t.price := by
  cases t with
  | floppyDisk id n p => rfl
  | compositeEquipment id n p cs =>
      simp only [getNetPrice, children, price]
      exact getNetPriceLoop_eq_foldl cs p

theorem ownPrices_eq (t : Equipment) : t.ownPrices = t.price :: ownPricesAll t.children := by
  cases t <;> simp [ownPrices, ownPricesAll, price, children]

theorem pricesAreInt_price {t : Equipment} (h : t.pricesAreInt) : IsInt t.price := by
  cases t with
  | floppyDisk id n p => exact h
  | compositeEquipment id n p cs => exact h.1

theorem getNetPriceLoop_eq_foldl_map (cs : List Equipment) (total : Int) :
    getNetPriceLoop total cs = (cs.map getNetPrice).foldl addInt total := by
  induction cs generalizing total with
  | nil => rfl
  | cons c cs ih => simp only [getNetPriceLoop, List.map_cons, List.foldl_cons]; exact ih _

theorem getNetPrice_eq_foldl_children (t : Equipment) :
    t.getNetPrice = (t.children.map getNetPrice).foldl addInt t.price := by
  cases t with
  | floppyDisk id n p => rfl
  | compositeEquipment id n p cs => exact getNetPriceLoop_eq_foldl_map cs p

/-- C1, the claim as stated fails: a composite priced 2147483647 that holds one leaf
priced 1 is a tree of `int` prices whose own prices sum to 2147483648, and
`getNetPrice` returns -2147483648 for it. -/
theorem getNetPrice_ne_sum_of_ownPrices :
    (compositeEquipment 3 "Base Chassis1.0" 2147483647
        [floppyDisk 1 "Floppy Disk1" 1]).pricesAreInt
      ∧ (compositeEquipment 3 "Base Chassis1.0" 2147483647
        [floppyDisk 1 "Floppy Disk1" 1]).ownPrices.sum = 2147483648
      ∧ (compositeEquipment 3 "Base Chassis1.0" 2147483647
        [floppyDisk 1 "Floppy Disk1" 1]).getNetPrice = -2147483648
      ∧ ¬ (compositeEquipment 3 "Base Chassis1.0" 2147483647
            [floppyDisk 1 "Floppy Disk1" 1]).getNetPrice
          = (compositeEquipment 3 "Base Chassis1.0" 2147483647
            [floppyDisk 1 "Floppy Disk1" 1]).ownPrices.sum := by
  refine ⟨?_, ?_, ?_, ?_⟩
  · simp [pricesAreInt, pricesAreIntAll, IsInt, INT_MIN, INT_MAX]
  · decide
  · decide
  · decide

/-- C1 (amended): for every tree of `int` prices, `getNetPrice` on the root is the sum
of the own prices of all nodes of the subtree reduced to the 32-bit `int` range, so
it is that sum itself whenever the sum is an `int`; a leaf (no children) returns its
own price and a composite returns its own price plus, in `int` arithmetic, the
`getNetPrice` of its children in list order. The value depends on the tree only
through the own prices of its nodes, whatever the shape or nesting depth. -/
theorem getNetPrice_eq_sum_of_ownPrices (t : Equipment) (h : t.pricesAreInt) :
    t.getNetPrice = wrapInt t.ownPrices.sum
      ∧ (IsInt t.ownPrices.sum → t.getNetPrice = t.ownPrices.sum)
      ∧ t.getNetPrice = (t.children.map getNetPrice).foldl addInt t.price := by
  have hsum : t.getNetPrice = wrapInt t.ownPrices.sum := by
    rw [getNetPrice_eq_foldl_ownPrices, ownPrices_eq, List.sum_cons]
    exact foldl_addInt_of_isInt _ _ (pricesAreInt_price h)
  refine ⟨hsum, ?_, getNetPrice_eq_foldl_children t⟩
  intro hfit
  rw [hsum, wrapInt_of_isInt hfit]

theorem eq5_pricesAreInt : eq5.pricesAreInt := by
  simp [eq5, eq4, eq3, eq2, eq1, Chassis, FloppyDisk, add, pricesAreInt, pricesAreIntAll,
    IsInt, INT_MIN, INT_MAX]

/-- Witness for C1: the assembly `eq5` of `main`. -/
theorem getNetPrice_eq_sum_of_ownPrices_witness :
    eq5.pricesAreInt
      ∧ (eq5.getNetPrice = wrapInt eq5.ownPrices.sum
        ∧ (IsInt eq5.ownPrices.sum → eq5.getNetPrice = eq5.ownPrices.sum)
        ∧ eq5.getNetPrice = (eq5.children.map getNetPrice).foldl addInt eq5.price) :=
  ⟨eq5_pricesAreInt, getNetPrice_eq_sum_of_ownPrices eq5 eq5_pricesAreInt⟩

/-! ## Composite: the leaf -/

/-- C2: for every leaf and every equipment argument, `add` and `remove` both end by
throwing the `Exception` ("Cannot add elements to leaf", "Cannot remove elements from
leaf"), write nothing, and leave the leaf as it was, with its id, name and price; the
receiver is still a leaf and has no children. -/
theorem leaf_add_remove_throw (id : Int) (n : String) (p : Int) (e : Equipment) :
    ((floppyDisk id n p).add e).completion = .threw ⟨"Cannot add elements to leaf"⟩
      ∧ ((floppyDisk id n p).add e).self = floppyDisk id n p
      ∧ ((floppyDisk id n p).add e).out = []
      ∧ ((floppyDisk id n p).remove e).completion
          = .threw ⟨"Cannot remove elements from leaf"⟩
      ∧ ((floppyDisk id n p).remove e).self = floppyDisk id n p
      ∧ ((floppyDisk id n p).remove e).out = []
      ∧ ((floppyDisk id n p).add e).self.children = []
      ∧ ((floppyDisk id n p).remove e).self.children = []
      ∧ ((floppyDisk id n p).add e).self.isComposite = false
      ∧ ((floppyDisk id n p).remove e).self.isComposite = false := by
  simp [add, remove, children, isComposite]

/-! ## Composite: `remove` -/

theorem removeLoop_of_no_match (id : Int) (rest before : List Equipment)
    (h : ∀ x ∈ rest, x.getId ≠ id) :
    removeLoop id before rest = (.returned, before ++ rest, []) := by
  induction rest generalizing before with
  | nil => simp [removeLoop]
  | cons x xs ih =>
      have hx : ¬ id = x.getId := fun hid => h x (List.mem_cons_self _ _) hid.symm
      simp only [removeLoop, hx, if_false]
      rw [ih (before ++ [x]) (fun y hy => h y (List.mem_cons_of_mem _ hy))]
      simp

theorem removeLoop_at_match (id : Int) (x : Equipment) (rest before : List Equipment)
    (hx : x.getId = id) :
    removeLoop id before (x :: rest)
      = (.invalidatedIterator, before ++ rest,
          CompositeEvent.removed (x.getName "").1.getId (x.getName "").2
            :: destroy (x.getName "").1) := by
  simp [removeLoop, hx]

theorem removeLoop_first_match (id : Int) (pre : List Equipment) (x : Equipment)
    (rest before : List Equipment) (hpre : ∀ y ∈ pre, y.getId ≠ id) (hx : x.getId = id) :
    removeLoop id before (pre ++ x :: rest)
      = (.invalidatedIterator, before ++ pre ++ rest,
          CompositeEvent.removed (x.getName "").1.getId (x.getName "").2
            :: destroy (x.getName "").1) := by
  induction pre generalizing before with
  | nil => simpa using removeLoop_at_match id x rest before hx
  | cons y ys ih =>
      have hy : ¬ id = y.getId := fun hid => hpre y (List.mem_cons_self _ _) hid.symm
      have step : removeLoop id before (y :: (ys ++ x :: rest))
          = removeLoop id (before ++ [y]) (ys ++ x :: rest) := by
        simp only [removeLoop, hy, if_false]
      rw [List.cons_append, step,
        ih (before ++ [y]) (fun z hz => hpre z (List.mem_cons_of_mem _ hz))]
      simp

/-- C5, the code at a failing input: the composite `eq3` of `main`, with the children
`eq1` (id 1) and `eq2` (id 2), gets the leaf `eq4` (id 4) added, which returns, and
removed again. The `remove` passes `eq1` and `eq2`, matches the child just added,
destroys it and erases its list node, and then increments the iterator of the erased
node: the call does not end by returning, so there is no state after the two calls in
which `getNetPrice()` could be compared with its former value. -/
theorem add_then_remove_invalidates_iterator :
    ((compositeEquipment 3 "Base Chassis1.0" 5000 [eq1, eq2]).add eq4).completion
        = Completion.returned
      ∧ ((compositeEquipment 3 "Base Chassis1.0" 5000 [eq1, eq2]).add eq4).self.children
        = [eq1, eq2, eq4]
      ∧ (((compositeEquipment 3 "Base Chassis1.0" 5000 [eq1, eq2]).add eq4).self.remove
          eq4).completion = Completion.invalidatedIterator
      ∧ (((compositeEquipment 3 "Base Chassis1.0" 5000 [eq1, eq2]).add eq4).self.remove
          eq4).completion ≠ Completion.returned
      ∧ (((compositeEquipment 3 "Base Chassis1.0" 5000 [eq1, eq2]).add eq4).self.remove
          eq4).out = [CompositeEvent.removed 4 "", CompositeEvent.destroyingObject] := by
  refine ⟨rfl, rfl, rfl, by decide, rfl⟩

/-- C6: for every composite `c` and every equipment `e` whose id is the id of no
direct child of `c`, `c.remove(e)` returns without throwing, writes nothing and
changes nothing: `c`, its child list (members and order) and `c.getNetPrice()` are
what they were. -/
theorem remove_of_absent_id_is_noop (id : Int) (n : String) (p : Int)
    (cs : List Equipment) (e : Equipment) (h : ∀ x ∈ cs, x.getId ≠ e.getId) :
    ((compositeEquipment id n p cs).remove e).completion = .returned
      ∧ ((compositeEquipment id n p cs).remove e).self = compositeEquipment id n p cs
      ∧ ((compositeEquipment id n p cs).remove e).self.children = cs
      ∧ ((compositeEquipment id n p cs).remove e).self.getNetPrice
          = (compositeEquipment id n p cs).getNetPrice
      ∧ ((compositeEquipment id n p cs).remove e).out = [] := by
  have hloop := removeLoop_of_no_match e.getId cs [] h
  simp only [List.nil_append] at hloop
  simp [remove, hloop, children]

/-- Witness for C6: removing the leaf `eq4` (id 4) from the composite `eq3` of `main`,
whose children have ids 1 and 2. -/
theorem remove_of_absent_id_is_noop_witness :
    (∀ x ∈ [eq1, eq2], x.getId ≠ eq4.getId)
      ∧ (((compositeEquipment 3 "Base Chassis1.0" 5000 [eq1, eq2]).remove eq4).completion
            = .returned
        ∧ ((compositeEquipment 3 "Base Chassis1.0" 5000 [eq1, eq2]).remove eq4).self
            = compositeEquipment 3 "Base Chassis1.0" 5000 [eq1, eq2]
        ∧ ((compositeEquipment 3 "Base Chassis1.0" 5000 [eq1, eq2]).remove
            eq4).self.children = [eq1, eq2]
        ∧ ((compositeEquipment 3 "Base Chassis1.0" 5000 [eq1, eq2]).remove
            eq4).self.getNetPrice
            = (compositeEquipment 3 "Base Chassis1.0" 5000 [eq1, eq2]).getNetPrice
        ∧ ((compositeEquipment 3 "Base Chassis1.0" 5000 [eq1, eq2]).remove eq4).out = []) :=
  ⟨by decide, remove_of_absent_id_is_noop 3 "Base Chassis1.0" 5000 [eq1, eq2] eq4 (by decide)⟩

/-- C7, the code at a failing input: the composite `eq3` of `main` has the children
`eq1` (id 1) and `eq2` (id 2); `eq3.remove` of an equipment with id 1 matches `eq1`,
clears its name, writes the removal line, destroys it and unlinks it, leaving
`[eq2]`, and then increments the iterator of the erased node, so the call does not
end by returning. -/
theorem remove_of_child_invalidates_iterator :
    eq3.children = [eq1, eq2]
      ∧ (eq3.remove (floppyDisk 1 "Floppy Disk1" 100)).completion = .invalidatedIterator
      ∧ (eq3.remove (floppyDisk 1 "Floppy Disk1" 100)).self.children = [eq2]
      ∧ (eq3.remove (floppyDisk 1 "Floppy Disk1" 100)).out
          = [CompositeEvent.removed 1 "", CompositeEvent.destroyingObject] := by
  refine ⟨rfl, rfl, rfl, rfl⟩

/-! ## Composite: the scenario of `main` -/

/-- C10: the composite `eq3` of `main`, priced 5000 and holding the leaves priced 100
and 500, has `getNetPrice()` 5600; the outer composite `eq5`, priced 5000 and holding
`eq3` and the leaf priced 1000, has `getNetPrice()` 11600. -/
theorem main_getNetPrice :
    eq3 = compositeEquipment 3 "Base Chassis1.0" 5000
        [floppyDisk 1 "Floppy Disk1" 100, floppyDisk 2 "Floppy Disk2.1" 500]
      ∧ eq3.getNetPrice = 5600
      ∧ eq5 = compositeEquipment 5 "Main Chassis2.1" 5000
          [eq3, floppyDisk 4 "Main Disk1" 1000]
      ∧ eq5.getNetPrice = 11600 := by
  refine ⟨rfl, ?_, rfl, ?_⟩ <;> decide

end Equipment

namespace Image

/-! ## Proxy: lazy construction of the real image -/

theorem drawTimes_loaded (n : Nat) (self : Image) (real : RealImage)
    (h : self.m_the_real_thing = some real) :
    drawTimes n self = (self, List.replicate n (ProxyEvent.drawing real.m_id)) := by
  induction n with
  | zero => rfl
  | succ n ih =>
      have hdraw : self.draw = (self, [ProxyEvent.drawing real.m_id]) := by
        simp [draw, h, RealImage.draw]
      simp only [drawTimes, hdraw, ih, List.replicate_succ]
      rfl

/-- C4: an `Image` as its constructor leaves it holds no real image. For every
`n ≥ 1`, `n` consecutive `draw()` calls on it write one `RealImage` constructor line,
first of all and with the proxy's own identifier, followed by `n` drawing lines; so
exactly one `RealImage` is constructed, by the first call. The proxy after the `n`
calls is the proxy after one call, and it holds that `RealImage`. -/
theorem draw_constructs_once (s_next : Int) (n : Nat) (h : 1 ≤ n) :
    (Image.new s_next).1.m_the_real_thing = none
      ∧ (drawTimes n (Image.new s_next).1).2
          = ProxyEvent.ctor (Image.new s_next).1.m_id
              :: List.replicate n (ProxyEvent.drawing (Image.new s_next).1.m_id)
      ∧ ctorCount (drawTimes n (Image.new s_next).1).2 = 1
      ∧ ctorCount (Image.new s_next).1.draw.2 = 1
      ∧ (drawTimes n (Image.new s_next).1).1 = (drawTimes 1 (Image.new s_next).1).1
      ∧ (drawTimes n (Image.new s_next).1).1
          = { m_the_real_thing := some { m_id := (Image.new s_next).1.m_id },
              m_id := (Image.new s_next).1.m_id } := by
  obtain ⟨m, rfl⟩ : ∃ m, n = m + 1 := ⟨n - 1, by omega⟩
  have hrest : ∀ k, drawTimes k (Image.new s_next).1.draw.1
      = ((Image.new s_next).1.draw.1, List.replicate k (ProxyEvent.drawing s_next)) :=
    fun k => drawTimes_loaded k _ { m_id := s_next } rfl
  have hout : (drawTimes (m + 1) (Image.new s_next).1).2
      = ProxyEvent.ctor s_next :: List.replicate (m + 1) (ProxyEvent.drawing s_next) := by
    simp only [drawTimes, hrest, List.replicate_succ]
    rfl
  refine ⟨rfl, hout, ?_, rfl, ?_, ?_⟩
  · rw [hout]
    simp [ctorCount]
  · simp only [drawTimes, hrest]
  · simp only [drawTimes, hrest]
    rfl

/-- Witness for C4: the image of `main` (identifier 1) drawn three times. -/
theorem draw_constructs_once_witness :
    (1 : Nat) ≤ 3
      ∧ ((Image.new 1).1.m_the_real_thing = none
        ∧ (drawTimes 3 (Image.new 1).1).2
            = ProxyEvent.ctor (Image.new 1).1.m_id
                :: List.replicate 3 (ProxyEvent.drawing (Image.new 1).1.m_id)
        ∧ ctorCount (drawTimes 3 (Image.new 1).1).2 = 1
        ∧ ctorCount (Image.new 1).1.draw.2 = 1
        ∧ (drawTimes 3 (Image.new 1).1).1 = (drawTimes 1 (Image.new 1).1).1
        ∧ (drawTimes 3 (Image.new 1).1).1
            = { m_the_real_thing := some { m_id := (Image.new 1).1.m_id },
                m_id := (Image.new 1).1.m_id }) :=
  ⟨by decide, draw_constructs_once 1 3 (by decide)⟩

/-! ## Proxy: identifiers -/

theorem construct_length (n : Nat) (s : Int) : (construct n s).1.length = n := by
  induction n generalizing s with
  | zero => rfl
  | succ n ih => simp [construct, ih]

theorem construct_getElem? (n : Nat) (s : Int) (hs : IsInt s) (i : Nat) (hi : i < n) :
    (construct n s).1[i]? = some { m_the_real_thing := none, m_id := wrapInt (s + i) } := by
  induction n generalizing s i with
  | zero => omega
  | succ n ih =>
      cases i with
      | zero => simp [construct, Image.new, wrapInt_of_isInt hs]
      | succ i =>
          have hstep := ih (addInt s 1) (wrapInt_isInt _) i (by omega)
          have e : wrapInt (addInt s 1 + (i : Int)) = wrapInt (s + ((i + 1 : Nat) : Int)) := by
            unfold addInt
            rw [wrapInt_wrapInt_add]
            congr 1
            push_cast
            ring
          simp only [construct, List.getElem?_cons_succ]
          change (construct n (addInt s 1)).1[i]? = _
          rw [hstep, e]

theorem construct_unloaded (n : Nat) (s : Int) :
    ∀ img ∈ (construct n s).1, img.m_the_real_thing = none := by
  induction n generalizing s with
  | zero => simp [construct]
  | succ n ih =>
      intro img himg
      simp only [construct, List.mem_cons] at himg
      rcases himg with rfl | himg
      · rfl
      · exact ih _ img himg

/-- C9, the claim as stated fails: the counter is an `int`, and of 2147483648 images
constructed one after the other from program start the last one gets the identifier
-2147483648, which is neither 2147483648 nor greater than the identifier 2147483647
of the image constructed before it. -/
theorem image_id_wraps :
    (construct 2147483648 s_next_initial).1[2147483646]?
        = some { m_the_real_thing := none, m_id := 2147483647 }
      ∧ (construct 2147483648 s_next_initial).1[2147483647]?
        = some { m_the_real_thing := none, m_id := -2147483648 }
      ∧ ¬ ((construct 2147483648 s_next_initial).1[2147483647]?
        = some { m_the_real_thing := none, m_id := 2147483648 }) := by
  have hs : IsInt s_next_initial := by decide
  have h1 := construct_getElem? 2147483648 s_next_initial hs 2147483646 (by norm_num)
  have h2 := construct_getElem? 2147483648 s_next_initial hs 2147483647 (by norm_num)
  have e1 : wrapInt (s_next_initial + (2147483646 : Nat)) = 2147483647 := by decide
  have e2 : wrapInt (s_next_initial + (2147483647 : Nat)) = -2147483648 := by decide
  rw [e1] at h1
  rw [e2] at h2
  refine ⟨h1, h2, ?_⟩
  rw [h2]
  decide

/-- C9 (amended): identifiers come from the counter `s_next`, which starts at 1: of
`n` images constructed one after the other from program start, the `k`-th gets the
identifier `k` for every `k` from 1 up to 2147483647 (the largest `int`), so the
identifiers of these images are strictly increasing in construction order and
pairwise distinct; no construction creates the real image. -/
theorem image_ids_count_up (n : Nat) :
    (construct n s_next_initial).1.length = n
      ∧ (∀ img ∈ (construct n s_next_initial).1, img.m_the_real_thing = none)
      ∧ (∀ k : Nat, 1 ≤ k → k ≤ n → (k : Int) ≤ INT_MAX →
          (construct n s_next_initial).1[k - 1]?
            = some { m_the_real_thing := none, m_id := (k : Int) })
      ∧ (∀ j k : Nat, 1 ≤ j → j < k → k ≤ n → (k : Int) ≤ INT_MAX →
          ∃ a b, (construct n s_next_initial).1[j - 1]? = some a
            ∧ (construct n s_next_initial).1[k - 1]? = some b ∧ a.m_id < b.m_id) := by
  have hs : IsInt s_next_initial := by decide
  have key : ∀ k : Nat, 1 ≤ k → k ≤ n → (k : Int) ≤ INT_MAX →
      (construct n s_next_initial).1[k - 1]?
        = some { m_the_real_thing := none, m_id := (k : Int) } := by
    intro k hk1 hkn hmax
    have h := construct_getElem? n s_next_initial hs (k - 1) (by omega)
    have hk : s_next_initial + ((k - 1 : Nat) : Int) = (k : Int) := by
      unfold s_next_initial
      omega
    have hint : IsInt (k : Int) := by
      unfold IsInt INT_MIN
      constructor
      · omega
      · exact hmax
    rw [h, hk, wrapInt_of_isInt hint]
  refine ⟨construct_length n _, construct_unloaded n _, key, ?_⟩
  intro j k hj hjk hkn hmax
  have hjmax : (j : Int) ≤ INT_MAX := by
    have : (j : Int) ≤ (k : Int) := by omega
    exact le_trans this hmax
  exact ⟨_, _, key j hj (by omega) hjmax, key k (by omega) hkn hmax, by simp; omega⟩

end Image

namespace FlyweightFactory

/-! ## Flyweight: one icon per key -/

theorem Icon_new_getName {name : String} {icon : Icon} (h : Icon.new name = .ok icon) :
    icon.getName = name := by
  unfold Icon.new at h
  split at h
  · cases h
  · simp only [Except.ok.injEq] at h
    subst h
    simp only [Icon.getName]
    split_ifs <;> rfl

theorem Icon_new_of_short {name : String} (h : name.utf8ByteSize < Icon.NAME_SIZE) :
    ∃ icon, Icon.new name = .ok icon := by
  unfold Icon.new
  have : ¬ Icon.NAME_SIZE < name.utf8ByteSize + 1 := by omega
  simp only [this, if_false]
  exact ⟨_, rfl⟩

theorem findIcon_eq_none {name : String} {l : List Icon} {i : Nat}
    (h : findIcon name l i = none) : ∀ x ∈ l, x.getName ≠ name := by
  induction l generalizing i with
  | nil => simp
  | cons icon rest ih =>
      unfold findIcon at h
      split_ifs at h with hname
      intro x hx
      rcases List.mem_cons.mp hx with rfl | hx
      · exact fun e => hname e.symm
      · exact ih h x hx

theorem findIcon_eq_some {name : String} {l : List Icon} {i j : Nat}
    (h : findIcon name l i = some j) :
    i ≤ j ∧ ∃ x, l[j - i]? = some x ∧ x.getName = name := by
  induction l generalizing i with
  | nil => simp [findIcon] at h
  | cons icon rest ih =>
      unfold findIcon at h
      split_ifs at h with hname
      · simp only [Option.some.injEq] at h
        subst h
        exact ⟨le_refl _, icon, by simp, hname.symm⟩
      · obtain ⟨hle, x, hx, hxn⟩ := ih h
        refine ⟨by omega, x, ?_, hxn⟩
        have : j - i = (j - (i + 1)) + 1 := by omega
        rw [this, List.getElem?_cons_succ]
        exact hx

/-- The two ways in which `getIcon` returns: the key was found in slot `i`, or it was
in no slot and a new icon went into the first free slot. -/
theorem getIcon_ok_cases {f f1 : FlyweightFactory} {name : String} {i : Nat}
    (h : getIcon f name = .ok (i, f1)) :
    (f1 = f ∧ ∃ x, f._icons[i]? = some x ∧ x.getName = name)
      ∨ (∃ icon, icon.getName = name ∧ (∀ x ∈ f._icons, x.getName ≠ name)
          ∧ f1._icons = f._icons ++ [icon] ∧ i = f._icons.length
          ∧ f._icons.length < MAX_ICONS) := by
  unfold getIcon at h
  split at h
  · rename_i j hfind
    simp only [Except.ok.injEq, Prod.mk.injEq] at h
    obtain ⟨rfl, rfl⟩ := h
    obtain ⟨_, x, hx, hxn⟩ := findIcon_eq_some hfind
    exact Or.inl ⟨rfl, x, by simpa using hx, hxn⟩
  · rename_i hfind
    split at h
    · cases h
    · rename_i icon hnew
      split_ifs at h with hcap
      simp only [Except.ok.injEq, Prod.mk.injEq] at h
      obtain ⟨rfl, rfl⟩ := h
      exact Or.inr ⟨icon, Icon_new_getName hnew, findIcon_eq_none hfind, rfl, rfl, hcap⟩

theorem SlotHolds_mono {f f1 : FlyweightFactory} {i : Nat} {k : String}
    (hp : f._icons <+: f1._icons) (h : SlotHolds f i k) : SlotHolds f1 i k := by
  obtain ⟨x, hx, hk⟩ := h
  obtain ⟨t, ht⟩ := hp
  refine ⟨x, ?_, hk⟩
  obtain ⟨hlt, _⟩ := List.getElem?_eq_some.mp hx
  rw [← ht, List.getElem?_append_left hlt]
  exact hx

theorem SlotHolds_inj {f : FlyweightFactory} (hnd : f.reportTheIcons.Nodup) {i j : Nat}
    {k : String} (hi : SlotHolds f i k) (hj : SlotHolds f j k) : i = j := by
  obtain ⟨x, hx, hxk⟩ := hi
  obtain ⟨y, hy, hyk⟩ := hj
  obtain ⟨hil, hxi⟩ := List.getElem?_eq_some.mp hx
  obtain ⟨hjl, hyj⟩ := List.getElem?_eq_some.mp hy
  have hil1 : i < f.reportTheIcons.length := by simpa [reportTheIcons] using hil
  have hjl1 : j < f.reportTheIcons.length := by simpa [reportTheIcons] using hjl
  have heq : f.reportTheIcons[i] = f.reportTheIcons[j] := by
    simp only [reportTheIcons, List.getElem_map, hxi, hyj, hxk, hyk]
  exact (hnd.getElem_inj_iff).mp heq

theorem getIcon_spec {f f1 : FlyweightFactory} {name : String} {i : Nat}
    (h : getIcon f name = .ok (i, f1)) (hnd : f.reportTheIcons.Nodup) :
    f1.reportTheIcons.Nodup ∧ f._icons <+: f1._icons ∧ SlotHolds f1 i name
      ∧ (∀ k ∈ f1.reportTheIcons, k ∈ f.reportTheIcons ∨ k = name) := by
  rcases getIcon_ok_cases h with ⟨rfl, hslot⟩ | ⟨icon, hname, hnew, happ, rfl, _⟩
  · exact ⟨hnd, List.prefix_refl _, hslot, fun k hk => Or.inl hk⟩
  · have hrep : f1.reportTheIcons = f.reportTheIcons ++ [name] := by
      simp [reportTheIcons, happ, hname]
    refine ⟨?_, ⟨[icon], happ.symm⟩, ⟨icon, ?_, hname⟩, ?_⟩
    · rw [hrep]
      refine List.nodup_append.mpr ⟨hnd, List.nodup_singleton _, ?_⟩
      intro a ha hb
      simp only [List.mem_singleton] at hb
      subst hb
      simp only [reportTheIcons, List.mem_map] at ha
      obtain ⟨x, hx, hxa⟩ := ha
      exact hnew x hx hxa
    · rw [happ]
      exact List.getElem?_concat_length _ _
    · intro k hk
      rw [hrep] at hk
      simpa using hk

theorem getIcons_spec (keys : List String) (f : FlyweightFactory)
    (hnd : f.reportTheIcons.Nodup) :
    (getIcons f keys).2.1.reportTheIcons.Nodup
      ∧ f._icons <+: (getIcons f keys).2.1._icons
      ∧ (∀ i s : Nat, (getIcons f keys).1[i]? = some s →
          ∃ k, keys[i]? = some k ∧ SlotHolds (getIcons f keys).2.1 s k)
      ∧ (∀ k ∈ (getIcons f keys).2.1.reportTheIcons, k ∈ f.reportTheIcons ∨ k ∈ keys)
      ∧ ((getIcons f keys).2.2 = none → (getIcons f keys).1.length = keys.length) := by
  induction keys generalizing f with
  | nil =>
      refine ⟨hnd, List.prefix_refl _, ?_, fun k hk => Or.inl hk, fun _ => rfl⟩
      intro i s h
      simp [getIcons] at h
  | cons name names ih =>
      cases hget : getIcon f name with
      | error e =>
          simp only [getIcons, hget]
          refine ⟨hnd, List.prefix_refl _, ?_, fun k hk => Or.inl hk, ?_⟩
          · intro i s h
            simp at h
          · intro h
            simp at h
      | ok r =>
          obtain ⟨i0, f1⟩ := r
          obtain ⟨hnd1, hp1, hslot1, hsub1⟩ := getIcon_spec hget hnd
          obtain ⟨hnd2, hp2, hslots2, hsub2, hlen2⟩ := ih f1 hnd1
          simp only [getIcons, hget]
          refine ⟨hnd2, List.IsPrefix.trans hp1 hp2, ?_, ?_, ?_⟩
          · intro i s h
            cases i with
            | zero =>
                simp only [List.getElem?_cons_zero, Option.some.injEq] at h
                subst h
                exact ⟨name, List.getElem?_cons_zero, SlotHolds_mono hp2 hslot1⟩
            | succ i =>
                simp only [List.getElem?_cons_succ] at h
                obtain ⟨k, hk, hs⟩ := hslots2 i s h
                refine ⟨k, ?_, hs⟩
                rw [List.getElem?_cons_succ]
                exact hk
          · intro k hk
            rcases hsub2 k hk with h | h
            · rcases hsub1 k h with h | h
              · exact Or.inl h
              · exact Or.inr (by simp [h])
            · exact Or.inr (List.mem_cons_of_mem _ h)
          · intro h
            simp only [List.length_cons, hlen2 h]

theorem initial_nodup : initial.reportTheIcons.Nodup := by
  simp [initial, reportTheIcons]

/-- Within the capacity of the registry no call of a sequence leaves defined behaviour:
the keys already registered and the keys requested are at most `MAX_ICONS` distinct
strings, and every key requested fits the name buffer. -/
theorem getIcons_no_fault (keys : List String) (f : FlyweightFactory)
    (hnd : f.reportTheIcons.Nodup)
    (hcap : (f.reportTheIcons.toFinset ∪ keys.toFinset).card ≤ MAX_ICONS)
    (hshort : ∀ k ∈ keys, k.utf8ByteSize < Icon.NAME_SIZE) :
    (getIcons f keys).2.2 = none := by
  induction keys generalizing f with
  | nil => rfl
  | cons name names ih =>
      have hshort1 : ∀ k ∈ names, k.utf8ByteSize < Icon.NAME_SIZE :=
        fun k hk => hshort k (List.mem_cons_of_mem _ hk)
      cases hfind : findIcon name f._icons 0 with
      | some j =>
          have hget : getIcon f name = .ok (j, f) := by simp [getIcon, hfind]
          simp only [getIcons, hget]
          refine ih f hnd (le_trans (Finset.card_le_card ?_) hcap) hshort1
          intro k hk
          simp only [Finset.mem_union, List.mem_toFinset, List.mem_cons] at hk ⊢
          tauto
      | none =>
          obtain ⟨icon, hnew⟩ := Icon_new_of_short (hshort name (List.mem_cons_self _ _))
          have hname := Icon_new_getName hnew
          have hfresh : name ∉ f.reportTheIcons := by
            intro hmem
            simp only [reportTheIcons, List.mem_map] at hmem
            obtain ⟨x, hx, hxn⟩ := hmem
            exact findIcon_eq_none hfind x hx hxn
          have hlt : f._numIcons < MAX_ICONS := by
            have hcard : (insert name f.reportTheIcons.toFinset).card
                = f.reportTheIcons.length + 1 := by
              rw [Finset.card_insert_of_not_mem (by simpa using hfresh),
                List.toFinset_card_of_nodup hnd]
            have hsub : insert name f.reportTheIcons.toFinset
                ⊆ f.reportTheIcons.toFinset ∪ (name :: names).toFinset := by
              intro k hk
              simp only [Finset.mem_insert, Finset.mem_union, List.mem_toFinset,
                List.mem_cons] at hk ⊢
              tauto
            have := le_trans (Finset.card_le_card hsub) hcap
            rw [hcard] at this
            simp only [reportTheIcons, List.length_map] at this
            simp only [_numIcons]
            omega
          have hget : getIcon f name
              = .ok (f._numIcons, { _icons := f._icons ++ [icon] }) := by
            simp [getIcon, hfind, hnew, hlt]
          obtain ⟨hnd1, _, _, _⟩ := getIcon_spec hget hnd
          simp only [getIcons, hget]
          refine ih _ hnd1 (le_trans (Finset.card_le_card ?_) hcap) hshort1
          intro k hk
          simp only [reportTheIcons, List.map_append, List.map_cons, List.map_nil, hname,
            Finset.mem_union, List.mem_toFinset, List.mem_append, List.mem_singleton,
            List.mem_cons] at hk ⊢
          tauto

theorem filter_getName_length_le_one (k : String) (l : List Icon)
    (hnd : (l.map Icon.getName).Nodup) :
    (l.filter fun x => decide (x.getName = k)).length ≤ 1 := by
  induction l with
  | nil => simp
  | cons x xs ih =>
      rw [List.map_cons, List.nodup_cons] at hnd
      by_cases hx : x.getName = k
      · have hnone : xs.filter (fun y => decide (y.getName = k)) = [] := by
          rw [List.filter_eq_nil_iff]
          intro y hy
          simp only [decide_eq_true_eq]
          intro hyk
          exact hnd.1 (List.mem_map.mpr ⟨y, hy, hyk.trans hx.symm⟩)
        simp [List.filter_cons, hx, hnone]
      · simpa [List.filter_cons, hx] using ih hnd.2

/-- Among the calls of a sequence that return, two calls return the same registry slot
exactly when their keys are the same string; every call of the sequence returns
unless one of them leaves defined behaviour, and none does when the sequence asks for
at most `MAX_ICONS` distinct keys that fit the name buffer. -/
theorem getIcon_same_key_iff_same_icon (keys : List String) :
    (∀ (i j a b : Nat) (k1 k2 : String), keys[i]? = some k1 → keys[j]? = some k2 →
        (getIcons initial keys).1[i]? = some a → (getIcons initial keys).1[j]? = some b →
        (k1 = k2 ↔ a = b))
      ∧ ((getIcons initial keys).2.2 = none →
          (getIcons initial keys).1.length = keys.length)
      ∧ (keys.dedup.length ≤ MAX_ICONS → (∀ k ∈ keys, k.utf8ByteSize < Icon.NAME_SIZE) →
          (getIcons initial keys).2.2 = none) := by
  obtain ⟨hnd, _, hslots, _, hlen⟩ := getIcons_spec keys initial initial_nodup
  refine ⟨?_, hlen, ?_⟩
  · intro i j a b k1 k2 hk1 hk2 ha hb
    obtain ⟨k1', hk1', hsa⟩ := hslots i a ha
    obtain ⟨k2', hk2', hsb⟩ := hslots j b hb
    have e1 : k1' = k1 := Option.some.inj (hk1'.symm.trans hk1)
    have e2 : k2' = k2 := Option.some.inj (hk2'.symm.trans hk2)
    subst e1 e2
    constructor
    · intro hk
      subst hk
      exact SlotHolds_inj hnd hsa hsb
    · intro hab
      subst hab
      obtain ⟨x, hx, hxk⟩ := hsa
      obtain ⟨y, hy, hyk⟩ := hsb
      have hxy : x = y := Option.some.inj (hx.symm.trans hy)
      rw [← hxk, ← hyk, hxy]
  · intro hcap hshort
    refine getIcons_no_fault keys initial initial_nodup ?_ hshort
    have : initial.reportTheIcons.toFinset ∪ keys.toFinset = keys.toFinset := by
      simp [initial, reportTheIcons]
    rw [this, List.card_toFinset]
    exact hcap

/-- The calls for the keys of `mainKeys`, in this order: the icons come from slots 0,
1, 2, 2, 1, 3 and no call leaves defined behaviour. -/
theorem getIcons_mainKeys :
    (getIcons initial mainKeys).1 = [0, 1, 2, 2, 1, 3]
      ∧ (getIcons initial mainKeys).2.2 = none
      ∧ (getIcons initial mainKeys).2.1.reportTheIcons = ["go", "stop", "select", "undo"] := by
  decide

/-- C3, the code at a failing input: of the calls `getIcon("a")`, `getIcon("b")`,
`getIcon("c")`, `getIcon("d")`, `getIcon("e")`, `getIcon("f")`, `getIcon("f")` from
program start the first five return the icons of the slots 0 to 4. The sixth, for the
sixth distinct key, finds no icon named "f" and stores its new icon at index 5 of the
five-slot array `_icons`: it returns no icon of the registry, so the two calls for
"f" have no identical instance and the calls for "a" and "f" no two distinct ones. -/
theorem getIcon_returns_no_icon_for_sixth_key :
    (getIcons initial ["a", "b", "c", "d", "e", "f", "f"]).1 = [0, 1, 2, 3, 4]
      ∧ (getIcons initial ["a", "b", "c", "d", "e", "f", "f"]).2.2
          = some Fault.iconsOutOfRange
      ∧ (getIcons initial ["a", "b", "c", "d", "e", "f", "f"]).1[5]? = none
      ∧ (getIcons initial ["a", "b", "c", "d", "e", "f", "f"]).1[6]? = none
      ∧ findIcon "f" (getIcons initial ["a", "b", "c", "d", "e", "f", "f"]).2.1._icons 0
          = none
      ∧ getIcon (getIcons initial ["a", "b", "c", "d", "e", "f", "f"]).2.1 "f"
          = .error Fault.iconsOutOfRange := by
  refine ⟨by decide, by decide, by decide, by decide, by decide, rfl⟩

/-- C8: after every sequence of `getIcon` calls from program start, the keys reported
by `reportTheIcons` contain no key twice, every one of them was requested, and they
are no more than the distinct keys requested; the registry holds at most one `Icon`
for any key. -/
theorem reportTheIcons_nodup (keys : List String) :
    (getIcons initial keys).2.1.reportTheIcons.Nodup
      ∧ (∀ k ∈ (getIcons initial keys).2.1.reportTheIcons, k ∈ keys)
      ∧ (getIcons initial keys).2.1.reportTheIcons.length ≤ keys.dedup.length
      ∧ (∀ k : String,
          ((getIcons initial keys).2.1._icons.filter
            fun x => decide (x.getName = k)).length ≤ 1) := by
  obtain ⟨hnd, _, _, hsub, _⟩ := getIcons_spec keys initial initial_nodup
  have hsub1 : ∀ k ∈ (getIcons initial keys).2.1.reportTheIcons, k ∈ keys := by
    intro k hk
    rcases hsub k hk with h | h
    · simp [initial, reportTheIcons] at h
    · exact h
  refine ⟨hnd, hsub1, ?_, fun k => filter_getName_length_le_one k _ hnd⟩
  rw [← List.toFinset_card_of_nodup hnd, ← List.card_toFinset]
  apply Finset.card_le_card
  intro k hk
  simp only [List.mem_toFinset] at hk ⊢
  exact hsub1 k hk

/-! ## Flyweight: the dimensions of an icon -/

theorem getIcon_ok_built {f f1 : FlyweightFactory} {name : String} {i : Nat}
    (h : getIcon f name = .ok (i, f1)) :
    f1 = f ∨ ∃ icon, Icon.new name = .ok icon ∧ f1._icons = f._icons ++ [icon] := by
  unfold getIcon at h
  split at h
  · simp only [Except.ok.injEq, Prod.mk.injEq] at h
    exact Or.inl h.2.symm
  · split at h
    · cases h
    · rename_i icon hnew
      split_ifs at h
      simp only [Except.ok.injEq, Prod.mk.injEq] at h
      obtain ⟨_, rfl⟩ := h
      exact Or.inr ⟨icon, hnew, rfl⟩

theorem getIcons_allBuilt (keys : List String) (f : FlyweightFactory) (hf : AllBuilt f) :
    AllBuilt (getIcons f keys).2.1 := by
  induction keys generalizing f with
  | nil => exact hf
  | cons name names ih =>
      cases hget : getIcon f name with
      | error e => simpa only [getIcons, hget] using hf
      | ok r =>
          obtain ⟨i0, f1⟩ := r
          simp only [getIcons, hget]
          apply ih
          rcases getIcon_ok_built hget with rfl | ⟨icon, hnew, happ⟩
          · exact hf
          · intro x hx
            rw [happ, List.mem_append, List.mem_singleton] at hx
            rcases hx with hx | rfl
            · exact hf x hx
            · rw [Icon_new_getName hnew]
              exact hnew

theorem Icon_new_width_isSome {key : String} {icon : Icon} (h : Icon.new key = .ok icon) :
    (icon._width.isSome ↔ key = "go" ∨ key = "stop" ∨ key = "select" ∨ key = "undo")
      ∧ (icon._height.isSome ↔ key = "go" ∨ key = "stop" ∨ key = "select" ∨ key = "undo") := by
  unfold Icon.new at h
  split at h
  · cases h
  · simp only [Except.ok.injEq] at h
    subst h
    by_cases h1 : key = "go" <;> by_cases h2 : key = "stop" <;>
      by_cases h3 : key = "select" <;> by_cases h4 : key = "undo" <;>
      simp [h1, h2, h3, h4]

/-- The table of the constructor: it gives the icon of "go" the dimensions 20x20, of
"stop" 40x40, of "select" 60x60 and of "undo" 30x30, and it assigns dimensions for
these four keys only; what it assigns depends on the key alone; and every icon a
sequence of `getIcon` calls puts into the registry is the icon the constructor builds
from its name. -/
theorem icon_dimensions_from_table :
    Icon.new "go" = .ok { _name := "go", _width := some 20, _height := some 20 }
      ∧ Icon.new "stop" = .ok { _name := "stop", _width := some 40, _height := some 40 }
      ∧ Icon.new "select"
          = .ok { _name := "select", _width := some 60, _height := some 60 }
      ∧ Icon.new "undo" = .ok { _name := "undo", _width := some 30, _height := some 30 }
      ∧ (∀ (key : String) (i1 i2 : Icon) (w h : Int),
          Icon.new key = .ok i1 → Icon.new key = .ok i2 →
          i1._width = some w → i1._height = some h →
          i2._width = some w ∧ i2._height = some h)
      ∧ (∀ (key : String) (icon : Icon), Icon.new key = .ok icon →
          ((icon._width.isSome ↔ key = "go" ∨ key = "stop" ∨ key = "select" ∨ key = "undo")
            ∧ (icon._height.isSome
              ↔ key = "go" ∨ key = "stop" ∨ key = "select" ∨ key = "undo")))
      ∧ (∀ (keys : List String) (x : Icon), x ∈ (getIcons initial keys).2.1._icons →
          Icon.new x.getName = .ok x) := by
  refine ⟨rfl, rfl, rfl, rfl, ?_, ?_, ?_⟩
  · intro key i1 i2 w h h1 h2 hw hh
    have e : i1 = i2 := Except.ok.inj (h1.symm.trans h2)
    subst e
    exact ⟨hw, hh⟩
  · intro key icon h
    exact Icon_new_width_isSome h
  · intro keys x hx
    exact getIcons_allBuilt keys initial (by intro y hy; simp [initial] at hy) x hx

/-- C11, the code at a failing input: two icons built from the key "cancel", one in
storage that held 0 at both members and one in storage that held 1094795585. The
constructor assigns neither `_width` nor `_height` for this key, so each icon keeps
what its storage held: the first is 0x0 and the second 1094795585x1094795585, two
icons of the same key with different dimensions. For "go" the storage does not
matter: both icons are 20x20. -/
theorem icons_of_same_key_differ_in_dimensions :
    Icon.new "cancel" = .ok { _name := "cancel", _width := none, _height := none }
      ∧ ({ _name := "cancel", _width := none, _height := none } : Icon).widthIn 0 = 0
      ∧ ({ _name := "cancel", _width := none, _height := none } : Icon).heightIn 0 = 0
      ∧ ({ _name := "cancel", _width := none, _height := none } : Icon).widthIn 1094795585
          = 1094795585
      ∧ ({ _name := "cancel", _width := none, _height := none } : Icon).heightIn 1094795585
          = 1094795585
      ∧ ({ _name := "cancel", _width := none, _height := none } : Icon).widthIn 0
          ≠ ({ _name := "cancel", _width := none, _height := none } : Icon).widthIn
              1094795585
      ∧ Icon.new "go" = .ok { _name := "go", _width := some 20, _height := some 20 }
      ∧ ({ _name := "go", _width := some 20, _height := some 20 } : Icon).widthIn 0
          = ({ _name := "go", _width := some 20, _height := some 20 } : Icon).widthIn
              1094795585 := by
  refine ⟨rfl, ?_, ?_, ?_, ?_, ?_, rfl, ?_⟩ <;> decide

/-- C12, the code at a failing input: the constructor run for the key "cancel", and
for any key that fits the name buffer and is none of "go", "stop", "select" and
"undo", assigns neither `_width` nor `_height`; `getIcon("cancel")` registers that
icon, and drawing it reads the members that were never given a value. -/
theorem icon_of_unknown_key_has_no_dimensions :
    Icon.new "cancel" = .ok { _name := "cancel", _width := none, _height := none }
      ∧ getIcon initial "cancel"
          = .ok (0, { _icons := [{ _name := "cancel", _width := none, _height := none }] })
      ∧ drawIcon { _icons := [{ _name := "cancel", _width := none, _height := none }] }
          0 100 100 = .error Fault.uninitializedRead
      ∧ (∀ key : String, key.utf8ByteSize < Icon.NAME_SIZE →
          key ≠ "go" → key ≠ "stop" → key ≠ "select" → key ≠ "undo" →
          Icon.new key = .ok { _name := key, _width := none, _height := none }) := by
  refine ⟨rfl, rfl, rfl, ?_⟩
  intro key hshort h1 h2 h3 h4
  have hfit : ¬ Icon.NAME_SIZE < key.utf8ByteSize + 1 := by omega
  simp [Icon.new, hfit, h1, h2, h3, h4]

/-- C14, the code at failing inputs: after `getIcon` has registered the five keys
"a", "b", "c", "d", "e", the call `getIcon("f")` stores at index 5 of the five-slot
array `_icons`; and `getIcon` for a key of 20 characters copies 21 bytes into the
20-byte member `_name`. Neither call returns an icon. -/
theorem getIcon_leaves_defined_behaviour :
    (getIcons initial ["a", "b", "c", "d", "e"]).1 = [0, 1, 2, 3, 4]
      ∧ (getIcons initial ["a", "b", "c", "d", "e"]).2.2 = none
      ∧ (getIcons initial ["a", "b", "c", "d", "e"]).2.1._numIcons = MAX_ICONS
      ∧ getIcon (getIcons initial ["a", "b", "c", "d", "e"]).2.1 "f"
          = .error Fault.iconsOutOfRange
      ∧ (getIcons initial ["a", "b", "c", "d", "e", "f"]).2.2 = some Fault.iconsOutOfRange
      ∧ getIcon initial "abcdefghijklmnopqrst" = .error Fault.nameBufferOverrun := by
  refine ⟨by decide, by decide, by decide, rfl, by decide, rfl⟩

/-! ## Flyweight: drawing an icon -/

theorem set_of_getElem? {α : Type} (l : List α) (i : Nat) (a : α) (h : l[i]? = some a) :
    l.set i a = l := by
  induction l generalizing i with
  | nil => rfl
  | cons x xs ih =>
      cases i with
      | zero =>
          simp only [List.getElem?_cons_zero, Option.some.injEq] at h
          simp [h]
      | succ i =>
          simp only [List.getElem?_cons_succ] at h
          simp [ih i h]

/-- C13, the claim as stated fails: the icon of "go" (20x20) drawn at x = 2147483647,
y = 100 reports the lower right corner (-2147483629, 120): `x + _width` is an `int`
addition and cannot give 2147483667. -/
theorem draw_lower_right_wraps :
    ({ _name := "go", _width := some 20, _height := some 20 } : Icon).draw 2147483647 100
        = .ok ({ _name := "go", _width := some 20, _height := some 20 },
            FlyweightEvent.drawing "go" 2147483647 100 (-2147483629) 120)
      ∧ ¬ (({ _name := "go", _width := some 20, _height := some 20 } : Icon).draw
            2147483647 100
          = .ok ({ _name := "go", _width := some 20, _height := some 20 },
              FlyweightEvent.drawing "go" 2147483647 100 (2147483647 + 20) (100 + 20))) := by
  constructor
  · rfl
  · intro h
    have h1 := Except.ok.inj h
    simp only [Prod.mk.injEq, FlyweightEvent.drawing.injEq, true_and] at h1
    exact absurd h1.1 (by decide)

/-- C13 (amended): for every icon of the registry with dimensions (w, h) and every
position (x, y), `draw` writes the box with upper left (x, y) and lower right
(x + w, y + h), the two sums reduced to the `int` range and so exact whenever they are
values of type `int`; the line depends on the icon and on (x, y) only, and the call
leaves the icon (name, width, height) and the registry as they were. -/
theorem draw_reports_bounding_box (f : FlyweightFactory) (slot : Nat) (icon : Icon)
    (w h x y : Int) (hslot : f._icons[slot]? = some icon) (hw : icon._width = some w)
    (hh : icon._height = some h) :
    icon.draw x y
        = .ok (icon, FlyweightEvent.drawing icon._name x y (wrapInt (x + w)) (wrapInt (y + h)))
      ∧ (IsInt (x + w) → IsInt (y + h) →
          icon.draw x y = .ok (icon, FlyweightEvent.drawing icon._name x y (x + w) (y + h)))
      ∧ f.drawIcon slot x y
          = .ok (f, FlyweightEvent.drawing icon._name x y (wrapInt (x + w)) (wrapInt (y + h)))
      ∧ (IsInt (x + w) → IsInt (y + h) →
          f.drawIcon slot x y
            = .ok (f, FlyweightEvent.drawing icon._name x y (x + w) (y + h))) := by
  have hdraw : icon.draw x y
      = .ok (icon, FlyweightEvent.drawing icon._name x y (wrapInt (x + w))
          (wrapInt (y + h))) := by
    simp only [Icon.draw, hw, hh, addInt]
  have hreg : f.drawIcon slot x y
      = .ok (f, FlyweightEvent.drawing icon._name x y (wrapInt (x + w))
          (wrapInt (y + h))) := by
    simp only [drawIcon, hslot, hdraw, set_of_getElem? _ _ _ hslot]
  refine ⟨hdraw, ?_, hreg, ?_⟩
  · intro hx hy
    rw [hdraw, wrapInt_of_isInt hx, wrapInt_of_isInt hy]
  · intro hx hy
    rw [hreg, wrapInt_of_isInt hx, wrapInt_of_isInt hy]

/-- Witness for C13: the icon of "go", in slot 0 of the registry that the calls for
the keys of `mainKeys` build, drawn at (100, 100), where the `FileSelection` dialog of
`main` draws its first icon. -/
theorem draw_reports_bounding_box_witness :
    (getIcons initial mainKeys).2.1.drawIcon 0 100 100
        = .ok ((getIcons initial mainKeys).2.1, FlyweightEvent.drawing "go" 100 100 120 120) :=
  (draw_reports_bounding_box (getIcons initial mainKeys).2.1 0
    { _name := "go", _width := some 20, _height := some 20 } 20 20 100 100
    (by decide) rfl rfl).2.2.2 (by decide) (by decide)

/-! ## Flyweight: the order of the registry -/

theorem getIcons_report (keys : List String) (f : FlyweightFactory) :
    (getIcons f keys).2.1.reportTheIcons
      = f.reportTheIcons
        ++ (removeLaterRepeats (keys.take (getIcons f keys).1.length)).filter
            fun k => decide (k ∉ f.reportTheIcons) := by
  induction keys generalizing f with
  | nil => simp [getIcons, removeLaterRepeats]
  | cons name names ih =>
      cases hget : getIcon f name with
      | error e => simp [getIcons, hget, removeLaterRepeats]
      | ok r =>
          obtain ⟨i0, f1⟩ := r
          simp only [getIcons, hget, List.length_cons, List.take_succ_cons,
            removeLaterRepeats]
          rw [ih f1]
          rcases getIcon_ok_cases hget with ⟨rfl, x, hx, hxn⟩ | ⟨icon, hname, hnew, happ, _, _⟩
          · have hmem : name ∈ f1.reportTheIcons := by
              simp only [reportTheIcons, List.mem_map]
              exact ⟨x, List.getElem?_mem hx, hxn⟩
            simp only [List.filter_cons, hmem, not_true_eq_false, decide_False,
              Bool.false_eq_true, if_false, List.filter_filter]
            congr 1
            apply List.filter_congr
            intro k _
            by_cases hk : k ∈ f1.reportTheIcons
            · simp [hk]
            · have : k ≠ name := fun e => hk (e ▸ hmem)
              simp [hk, this]
          · have hfresh : name ∉ f.reportTheIcons := by
              intro hmem
              simp only [reportTheIcons, List.mem_map] at hmem
              obtain ⟨x, hx, hxn⟩ := hmem
              exact hnew x hx hxn
            have hrep : f1.reportTheIcons = f.reportTheIcons ++ [name] := by
              simp [reportTheIcons, happ, hname]
            simp only [hrep, List.filter_cons, hfresh, not_false_eq_true, decide_True,
              if_true, List.filter_filter, List.append_assoc, List.singleton_append]
            congr 2
            apply List.filter_congr
            intro k _
            by_cases hk : k ∈ f.reportTheIcons
            · simp [hk]
            · by_cases hkn : k = name
              · simp [hkn]
              · simp [hk, hkn]

/-- After a sequence of `getIcon` calls from program start, `reportTheIcons` lists the
keys of the calls that returned with later repeats removed, each key once at the
place of its first request; these are all the calls of the sequence unless one of
them leaves defined behaviour, which none does when the sequence asks for at most
`MAX_ICONS` distinct keys that fit the name buffer. -/
theorem reportTheIcons_in_order_of_first_request (keys : List String) :
    (getIcons initial keys).2.1.reportTheIcons
        = removeLaterRepeats (keys.take (getIcons initial keys).1.length)
      ∧ ((getIcons initial keys).2.2 = none →
          (getIcons initial keys).2.1.reportTheIcons = removeLaterRepeats keys)
      ∧ (keys.dedup.length ≤ MAX_ICONS → (∀ k ∈ keys, k.utf8ByteSize < Icon.NAME_SIZE) →
          (getIcons initial keys).2.1.reportTheIcons = removeLaterRepeats keys) := by
  have hrep : (getIcons initial keys).2.1.reportTheIcons
      = removeLaterRepeats (keys.take (getIcons initial keys).1.length) := by
    rw [getIcons_report keys initial]
    simp [initial, reportTheIcons]
  have hall : (getIcons initial keys).2.2 = none →
      (getIcons initial keys).2.1.reportTheIcons = removeLaterRepeats keys := by
    intro hnone
    have hlen := (getIcons_spec keys initial initial_nodup).2.2.2.2 hnone
    rw [hrep, hlen, List.take_length]
  refine ⟨hrep, hall, ?_⟩
  intro hcap hshort
  apply hall
  refine getIcons_no_fault keys initial initial_nodup ?_ hshort
  have : initial.reportTheIcons.toFinset ∪ keys.toFinset = keys.toFinset := by
    simp [initial, reportTheIcons]
  rw [this, List.card_toFinset]
  exact hcap

/-- C20, the code at a failing input: the calls `getIcon("a")`, ..., `getIcon("f")` from
program start request six distinct keys, in this order. The call for "f" stores at
index 5 of the five-slot array `_icons` and registers nothing in a slot of the
registry: the slots hold "a", "b", "c", "d", "e", and that is all `reportTheIcons`
has to list, not the six keys requested. -/
theorem reportTheIcons_lacks_the_sixth_key :
    removeLaterRepeats ["a", "b", "c", "d", "e", "f"] = ["a", "b", "c", "d", "e", "f"]
      ∧ (getIcons initial ["a", "b", "c", "d", "e", "f"]).2.2 = some Fault.iconsOutOfRange
      ∧ (getIcons initial ["a", "b", "c", "d", "e", "f"]).2.1.reportTheIcons
          = ["a", "b", "c", "d", "e"]
      ∧ (getIcons initial ["a", "b", "c", "d", "e", "f"]).2.1.reportTheIcons
          ≠ removeLaterRepeats ["a", "b", "c", "d", "e", "f"] := by
  refine ⟨by decide, by decide, by decide, by decide⟩

/-- The calls for the keys of `mainKeys`, in this order: the report lists "go", "stop",
"select", "undo". -/
theorem reportTheIcons_mainKeys :
    removeLaterRepeats mainKeys = ["go", "stop", "select", "undo"]
      ∧ (getIcons initial mainKeys).2.1.reportTheIcons = removeLaterRepeats mainKeys := by
  decide

end FlyweightFactory

namespace Equipment

/-! ## Composite: what a call may end in -/

theorem getNetPrice_isInt (t : Equipment) (h : t.pricesAreInt) : IsInt t.getNetPrice := by
  rw [getNetPrice_eq_foldl_ownPrices, foldl_addInt_of_isInt _ _ (pricesAreInt_price h)]
  exact wrapInt_isInt _

/-- C15, the claim as stated fails: `remove` called on a composite with a null
argument evaluates `equipment->getId()` on the null pointer. -/
theorem remove_null_dereferences :
    ((Chassis 3 "Base Chassis1.0" 5000).removePtr none).completion
        = Completion.nullDereference
      ∧ ((Chassis 3 "Base Chassis1.0" 5000).removePtr none).completion
        ≠ Completion.returned
      ∧ ∀ ex : Exception,
          ((Chassis 3 "Base Chassis1.0" 5000).removePtr none).completion
            ≠ Completion.threw ex := by
  refine ⟨rfl, by decide, ?_⟩
  intro ex h
  cases h

/-- C15 (amended): for every equipment node and every equipment argument that is an
object (not null): on a leaf, `add` and `remove` end by throwing the `Exception` (the
leaf's `remove` also for a null argument, which it never looks at); on a composite,
`add` returns with the argument appended as last child, and `remove` returns with
the composite unchanged when no child has the argument's id; `getNetPrice` returns a
value of type `int` for every tree of `int` prices. -/
theorem calls_on_objects_complete (self e : Equipment) :
    (self.isComposite = false →
        (self.add e).completion = .threw ⟨"Cannot add elements to leaf"⟩
          ∧ (self.remove e).completion = .threw ⟨"Cannot remove elements from leaf"⟩
          ∧ (self.removePtr none).completion
              = .threw ⟨"Cannot remove elements from leaf"⟩
          ∧ (self.add e).self = self ∧ (self.remove e).self = self)
      ∧ (self.isComposite = true →
          (self.add e).completion = .returned
            ∧ (self.add e).self.children = self.children ++ [e]
            ∧ ((∀ x ∈ self.children, x.getId ≠ e.getId) →
                (self.remove e).completion = .returned ∧ (self.remove e).self = self))
      ∧ self.removePtr (some e) = self.remove e
      ∧ (self.pricesAreInt → IsInt self.getNetPrice) := by
  refine ⟨?_, ?_, rfl, getNetPrice_isInt self⟩
  · intro hleaf
    cases self with
    | floppyDisk id n p => simp [add, remove, removePtr]
    | compositeEquipment id n p cs => simp [isComposite] at hleaf
  · intro hcomp
    cases self with
    | floppyDisk id n p => simp [isComposite] at hcomp
    | compositeEquipment id n p cs =>
        refine ⟨rfl, rfl, ?_⟩
        intro hno
        have hloop := removeLoop_of_no_match e.getId cs [] hno
        simp only [List.nil_append] at hloop
        simp [remove, hloop]

/-! ## Composite: destruction -/

mutual
theorem destroy_count_destroyingObject (t : Equipment) :
    (destroy t).count CompositeEvent.destroyingObject = nodeCount t := by
  cases t with
  | floppyDisk id n p => simp [destroy, nodeCount]
  | compositeEquipment id n p cs =>
      simp only [destroy, nodeCount, List.count_append, List.count_cons, List.count_nil]
      rw [destroyAll_count_destroyingObject cs]
      simp
      omega
theorem destroyAll_count_destroyingObject (cs : List Equipment) :
    (destroyAll cs).count CompositeEvent.destroyingObject = nodeCountAll cs := by
  cases cs with
  | nil => simp [destroyAll, nodeCountAll]
  | cons c cs =>
      simp only [destroyAll, nodeCountAll, List.count_append]
      rw [destroy_count_destroyingObject c, destroyAll_count_destroyingObject cs]
end

mutual
theorem destroy_count_destructorCalled (t : Equipment) :
    (destroy t).count CompositeEvent.compositeDestructorCalled = compositeCount t := by
  cases t with
  | floppyDisk id n p => simp [destroy, compositeCount]
  | compositeEquipment id n p cs =>
      simp only [destroy, compositeCount, List.count_append, List.count_cons,
        List.count_nil]
      rw [destroyAll_count_destructorCalled cs]
      simp
theorem destroyAll_count_destructorCalled (cs : List Equipment) :
    (destroyAll cs).count CompositeEvent.compositeDestructorCalled
      = compositeCountAll cs := by
  cases cs with
  | nil => simp [destroyAll, compositeCountAll]
  | cons c cs =>
      simp only [destroyAll, compositeCountAll, List.count_append]
      rw [destroy_count_destructorCalled c, destroyAll_count_destructorCalled cs]
end

theorem destroyAll_eq_flatten (cs : List Equipment) : destroyAll cs = (cs.map destroy).flatten := by
  induction cs with
  | nil => rfl
  | cons c cs ih => simp [destroyAll, ih]

theorem destroy_getLast? (t : Equipment) :
    (destroy t).getLast? = some CompositeEvent.destroyingObject := by
  cases t with
  | floppyDisk id n p => rfl
  | compositeEquipment id n p cs =>
      simp only [destroy]
      exact List.getLast?_concat _

/-- C16: `delete` of a tree writes one "Destroying object" line for every node of
the tree, and one "CompositeEquipment Destructor called" line for every composite
among them. The lines of a composite are its two destructor lines, then the complete
lines of the destruction of each child in list order, then its own "Destroying
object" line, which is the last line of its destruction: all children are destroyed
before the destruction of the composite completes. -/
theorem destroy_post_order (t : Equipment) :
    (destroy t).count CompositeEvent.destroyingObject = nodeCount t
      ∧ (destroy t).count CompositeEvent.compositeDestructorCalled = compositeCount t
      ∧ (destroy t).getLast? = some CompositeEvent.destroyingObject
      ∧ (t.isComposite = false → destroy t = [CompositeEvent.destroyingObject])
      ∧ (t.isComposite = true →
          destroy t
            = [CompositeEvent.compositeDestructorCalled,
                CompositeEvent.compositeDetails t.getId t.name]
              ++ (t.children.map destroy).flatten ++ [CompositeEvent.destroyingObject]) := by
  refine ⟨destroy_count_destroyingObject t, destroy_count_destructorCalled t,
    destroy_getLast? t, ?_, ?_⟩
  · intro hleaf
    cases t with
    | floppyDisk id n p => rfl
    | compositeEquipment id n p cs => simp [isComposite] at hleaf
  · intro hcomp
    cases t with
    | floppyDisk id n p => simp [isComposite] at hcomp
    | compositeEquipment id n p cs =>
        simp only [destroy, destroyAll_eq_flatten, getId, name, children]

/-- The `delete eq5` of `main`: five nodes, two of them composites, the leaves of the
inner composite `eq3` destroyed before `eq3`, and `eq3` and `eq4` before `eq5`. -/
theorem destroy_eq5 :
    destroy eq5
      = [CompositeEvent.compositeDestructorCalled,
          CompositeEvent.compositeDetails 5 "Main Chassis2.1",
          CompositeEvent.compositeDestructorCalled,
          CompositeEvent.compositeDetails 3 "Base Chassis1.0",
          CompositeEvent.destroyingObject, CompositeEvent.destroyingObject,
          CompositeEvent.destroyingObject, CompositeEvent.destroyingObject,
          CompositeEvent.destroyingObject]
      ∧ nodeCount eq5 = 5 ∧ compositeCount eq5 = 2 := by
  decide

end Equipment

namespace Image

/-! ## Proxy: the states of a proxy -/

theorem draw_of_loaded (self : Image) (real : RealImage)
    (h : self.m_the_real_thing = some real) : self.draw.1 = self := by
  simp [draw, h]

theorem step_of_loaded (st : Image × Int) (op : Operation) (real : RealImage)
    (h : st.1.m_the_real_thing = some real) : (step st op).1 = st.1 := by
  cases op with
  | draw => exact draw_of_loaded st.1 real h
  | constructOther => rfl

theorem run_of_loaded (ops : List Operation) (st : Image × Int) (real : RealImage)
    (h : st.1.m_the_real_thing = some real) : (run st ops).1 = st.1 := by
  induction ops generalizing st with
  | nil => rfl
  | cons op ops ih =>
      have hstep := step_of_loaded st op real h
      have := ih (step st op) (by rw [hstep]; exact h)
      simp only [run, List.foldl_cons] at this ⊢
      rw [this, hstep]

theorem step_invariant (st : Image × Int) (op : Operation)
    (h : ∀ r, st.1.m_the_real_thing = some r → r.m_id = st.1.m_id) :
    (step st op).1.m_id = st.1.m_id
      ∧ ∀ r, (step st op).1.m_the_real_thing = some r → r.m_id = st.1.m_id := by
  cases op with
  | constructOther => exact ⟨rfl, h⟩
  | draw =>
      cases hreal : st.1.m_the_real_thing with
      | none =>
          refine ⟨?_, ?_⟩
          · simp only [step, draw, hreal]
          · intro r hr
            simp only [step, draw, hreal, RealImage.new, Option.some.injEq] at hr
            rw [← hr]
      | some real =>
          have hd := draw_of_loaded st.1 real hreal
          refine ⟨?_, ?_⟩
          · simp only [step, hd]
          · intro r hr
            simp only [step, hd] at hr
            exact h r hr

theorem run_invariant (ops : List Operation) (st : Image × Int)
    (h : ∀ r, st.1.m_the_real_thing = some r → r.m_id = st.1.m_id) :
    (run st ops).1.m_id = st.1.m_id
      ∧ ∀ r, (run st ops).1.m_the_real_thing = some r → r.m_id = st.1.m_id := by
  induction ops generalizing st with
  | nil => exact ⟨rfl, h⟩
  | cons op ops ih =>
      obtain ⟨hid, hreal⟩ := step_invariant st op h
      have := ih (step st op) (by rw [hid]; exact hreal)
      simp only [run, List.foldl_cons] at this ⊢
      rw [hid] at this
      exact this

theorem new_invariant (s0 : Int) :
    ∀ r, (Image.new s0).1.m_the_real_thing = some r → r.m_id = (Image.new s0).1.m_id := by
  intro r hr
  cases hr

/-- C17: for every proxy the program can reach (constructed, then any sequence of
`draw()` calls and constructions of other images), destroying it while it is Loaded
writes one `RealImage` destructor line, carrying the proxy's identifier, and
destroying it while it is Unloaded writes nothing. -/
theorem destroy_proxy (s0 : Int) (ops : List Operation) :
    (run (Image.new s0) ops).1.m_id = s0
      ∧ ((run (Image.new s0) ops).1.state = State.Loaded →
          (run (Image.new s0) ops).1.destroy = [ProxyEvent.dtor s0])
      ∧ ((run (Image.new s0) ops).1.state = State.Unloaded →
          (run (Image.new s0) ops).1.destroy = [])
      ∧ (Image.new s0).1.destroy = []
      ∧ (Image.new s0).1.draw.1.destroy = [ProxyEvent.dtor s0] := by
  obtain ⟨hid, hreal⟩ := run_invariant ops (Image.new s0) (new_invariant s0)
  refine ⟨hid, ?_, ?_, rfl, rfl⟩
  · intro hstate
    cases hr : (run (Image.new s0) ops).1.m_the_real_thing with
    | none => simp [state, hr] at hstate
    | some real =>
        have := hreal real hr
        simp only [destroy, hr, RealImage.destroy, this]
        rfl
  · intro hstate
    cases hr : (run (Image.new s0) ops).1.m_the_real_thing with
    | none => simp [destroy, hr]
    | some real => simp [state, hr] at hstate

/-- C18: a proxy is Unloaded when constructed. In every state the program can reach,
an operation that takes the proxy from Unloaded to Loaded is a call of its `draw()`,
and `draw()` does take an Unloaded proxy to Loaded; once the proxy is Loaded, no
sequence of operations changes it: it stays Loaded and keeps the same real image,
which is the one constructed with the proxy's identifier. -/
theorem proxy_state_machine (s0 : Int) (ops : List Operation) :
    (Image.new s0).1.state = State.Unloaded
      ∧ (∀ op : Operation, (run (Image.new s0) ops).1.state = State.Unloaded →
          (step (run (Image.new s0) ops) op).1.state = State.Loaded → op = Operation.draw)
      ∧ ((run (Image.new s0) ops).1.state = State.Unloaded →
          (step (run (Image.new s0) ops) Operation.draw).1.state = State.Loaded)
      ∧ (∀ (more : List Operation) (real : RealImage),
          (run (Image.new s0) ops).1.m_the_real_thing = some real →
          (run (run (Image.new s0) ops) more).1 = (run (Image.new s0) ops).1
            ∧ (run (run (Image.new s0) ops) more).1.m_the_real_thing = some real
            ∧ (run (run (Image.new s0) ops) more).1.state = State.Loaded)
      ∧ (∀ real : RealImage,
          (run (Image.new s0) ops).1.m_the_real_thing = some real → real.m_id = s0) := by
  refine ⟨rfl, ?_, ?_, ?_, ?_⟩
  · intro op hun hlo
    cases op with
    | draw => rfl
    | constructOther =>
        simp only [step] at hlo
        rw [hun] at hlo
        cases hlo
  · intro hun
    cases hr : (run (Image.new s0) ops).1.m_the_real_thing with
    | none => simp [step, draw, state, hr]
    | some real => simp [state, hr] at hun
  · intro more real hreal
    have hsame := run_of_loaded more _ real hreal
    refine ⟨hsame, ?_, ?_⟩
    · rw [hsame]
      exact hreal
    · rw [hsame]
      simp [state, hreal]
  · intro real hreal
    exact (run_invariant ops (Image.new s0) (new_invariant s0)).2 real hreal

/-! ## Proxy: lazy and eager use -/

theorem RealImage_drawTimes (real : RealImage) (n : Nat) :
    real.drawTimes n = List.replicate n (ProxyEvent.drawing real.m_id) := by
  induction n with
  | zero => rfl
  | succ n ih => simp [RealImage.drawTimes, RealImage.draw, ih, List.replicate_succ]

theorem eagerTrace_eq (i : Int) (n : Nat) :
    RealImage.eagerTrace i n = ProxyEvent.ctor i :: List.replicate n (ProxyEvent.drawing i) := by
  simp [RealImage.eagerTrace, RealImage.new, RealImage_drawTimes]

theorem lazyTrace_zero (i : Int) : lazyTrace i 0 = [] := rfl

theorem lazyTrace_succ (i : Int) (n : Nat) :
    lazyTrace i (n + 1)
      = ProxyEvent.ctor i :: List.replicate (n + 1) (ProxyEvent.drawing i) := by
  have hrest : drawTimes n (Image.new i).1.draw.1
      = ((Image.new i).1.draw.1, List.replicate n (ProxyEvent.drawing i)) :=
    drawTimes_loaded n _ { m_id := i } rfl
  simp only [lazyTrace, drawTimes, hrest, List.replicate_succ]
  rfl

theorem ctorCount_replicate (i : Int) (n : Nat) :
    ctorCount (List.replicate n (ProxyEvent.drawing i)) = 0 := by
  simp [ctorCount]

/-- C19: for every identifier `i` and every `n`, the drawing lines written by `n`
calls of `draw()` on a proxy with identifier `i` are those written by `n` calls of
`draw()` on a `RealImage(i)` constructed beforehand, `n` times "drawing image i". The
two outputs are equal apart from constructor lines: the eager one always has one, at
its start; the lazy one has it before the first drawing line, and none for `n = 0`. -/
theorem lazy_draws_like_eager (i : Int) (n : Nat) :
    drawOutputs (lazyTrace i n) = drawOutputs (RealImage.eagerTrace i n)
      ∧ drawOutputs (lazyTrace i n) = List.replicate n (ProxyEvent.drawing i)
      ∧ withoutCtor (lazyTrace i n) = withoutCtor (RealImage.eagerTrace i n)
      ∧ ctorCount (RealImage.eagerTrace i n) = 1
      ∧ ctorCount (lazyTrace i n) = (if n = 0 then 0 else 1)
      ∧ (1 ≤ n → lazyTrace i n = RealImage.eagerTrace i n) := by
  have hc := ctorCount_replicate i
  cases n with
  | zero =>
      rw [lazyTrace_zero, eagerTrace_eq]
      refine ⟨rfl, rfl, rfl, rfl, rfl, ?_⟩
      intro h
      omega
  | succ n =>
      rw [lazyTrace_succ, eagerTrace_eq]
      have hd1 : drawOutputs (ProxyEvent.ctor i :: List.replicate (n + 1) (ProxyEvent.drawing i))
          = List.replicate (n + 1) (ProxyEvent.drawing i) := by
        simp [drawOutputs]
      have hc1 : ctorCount (ProxyEvent.ctor i :: List.replicate (n + 1) (ProxyEvent.drawing i))
          = 1 := by
        have := hc (n + 1)
        simp only [ctorCount] at this ⊢
        simp only [List.filter_cons_of_pos, List.length_cons, this]
      refine ⟨rfl, hd1, rfl, hc1, ?_, fun _ => rfl⟩
      rw [hc1]
      simp

end Image

namespace FlyweightFactory

/-! ## Flyweight: a key that is present, and the growth of the registry -/

theorem findIcon_of_mem {name : String} {l : List Icon} (i : Nat)
    (h : name ∈ l.map Icon.getName) : ∃ j, findIcon name l i = some j := by
  induction l generalizing i with
  | nil => simp at h
  | cons icon rest ih =>
      unfold findIcon
      by_cases hname : name = icon.getName
      · exact ⟨i, by simp [hname]⟩
      · simp only [hname, if_false]
        apply ih
        simp only [List.map_cons, List.mem_cons] at h
        rcases h with h | h
        · exact absurd h hname
        · exact h

theorem findIcon_append_new {name : String} {l : List Icon} {icon : Icon} (i : Nat)
    (hnone : ∀ x ∈ l, x.getName ≠ name) (hname : icon.getName = name) :
    findIcon name (l ++ [icon]) i = some (i + l.length) := by
  induction l generalizing i with
  | nil => simp [findIcon, hname]
  | cons x xs ih =>
      have hx : ¬ name = x.getName := fun e => hnone x (List.mem_cons_self _ _) e.symm
      have step : findIcon name (x :: (xs ++ [icon])) i
          = findIcon name (xs ++ [icon]) (i + 1) := by
        simp only [findIcon, hx, if_false]
      rw [List.cons_append, step, ih (i + 1) (fun y hy => hnone y (List.mem_cons_of_mem _ hy))]
      simp only [List.length_cons]
      congr 1
      omega

theorem getIcon_again {f f1 : FlyweightFactory} {name : String} {i : Nat}
    (h : getIcon f name = .ok (i, f1)) : getIcon f1 name = .ok (i, f1) := by
  unfold getIcon at h
  split at h
  · rename_i j hfind
    simp only [Except.ok.injEq, Prod.mk.injEq] at h
    obtain ⟨rfl, rfl⟩ := h
    simp [getIcon, hfind]
  · rename_i hfind
    split at h
    · cases h
    · rename_i icon hnew
      split_ifs at h with hcap
      simp only [Except.ok.injEq, Prod.mk.injEq] at h
      obtain ⟨rfl, rfl⟩ := h
      have hfound := findIcon_append_new 0 (findIcon_eq_none hfind) (Icon_new_getName hnew)
      simp only [Nat.zero_add] at hfound
      simp [getIcon, hfound, _numIcons]

/-- C21: for every registry and every key that some icon of it carries, `getIcon(key)`
returns and leaves the registry exactly as it was; the icon returned is one of the
registry with that key, the only one where no key occurs twice. And whenever
`getIcon(k)` returns, a second `getIcon(k)` returns the same icon and leaves the
registry as the first call left it. -/
theorem getIcon_of_present_key (f : FlyweightFactory) (key : String)
    (h : key ∈ f.reportTheIcons) :
    (∃ i, getIcon f key = .ok (i, f) ∧ SlotHolds f i key
        ∧ (f.reportTheIcons.Nodup → ∀ j, SlotHolds f j key → j = i))
      ∧ (∀ (g g1 : FlyweightFactory) (k : String) (i : Nat),
          getIcon g k = .ok (i, g1) → getIcon g1 k = .ok (i, g1)) := by
  refine ⟨?_, fun g g1 k i hg => getIcon_again hg⟩
  obtain ⟨j, hj⟩ := findIcon_of_mem 0 h
  obtain ⟨_, x, hx, hxn⟩ := findIcon_eq_some hj
  have hslot : SlotHolds f j key := ⟨x, by simpa using hx, hxn⟩
  refine ⟨j, by simp [getIcon, hj], hslot, ?_⟩
  intro hnd j1 hj1
  exact SlotHolds_inj hnd hj1 hslot

/-- Witness for C21: the key "stop" in the registry that the calls for the keys of
`mainKeys` build. -/
theorem getIcon_of_present_key_witness :
    (∃ i, getIcon (getIcons initial mainKeys).2.1 "stop"
          = .ok (i, (getIcons initial mainKeys).2.1)
        ∧ SlotHolds (getIcons initial mainKeys).2.1 i "stop"
        ∧ ((getIcons initial mainKeys).2.1.reportTheIcons.Nodup →
            ∀ j, SlotHolds (getIcons initial mainKeys).2.1 j "stop" → j = i))
      ∧ (∀ (g g1 : FlyweightFactory) (k : String) (i : Nat),
          getIcon g k = .ok (i, g1) → getIcon g1 k = .ok (i, g1)) :=
  getIcon_of_present_key (getIcons initial mainKeys).2.1 "stop" (by decide)

theorem getElem?_of_isPrefix {l l1 : List Icon} (hp : l <+: l1) (j : Nat) (x : Icon)
    (hx : l[j]? = some x) : l1[j]? = some x := by
  obtain ⟨t, ht⟩ := hp
  obtain ⟨hlt, _⟩ := List.getElem?_eq_some.mp hx
  rw [← ht, List.getElem?_append_left hlt]
  exact hx

theorem getIcon_isPrefix {f f1 : FlyweightFactory} {name : String} {i : Nat}
    (h : getIcon f name = .ok (i, f1)) :
    f._icons <+: f1._icons ∧ f1._icons.length ≤ f._icons.length + 1 := by
  rcases getIcon_ok_built h with rfl | ⟨icon, _, happ⟩
  · exact ⟨List.prefix_refl _, by omega⟩
  · exact ⟨⟨[icon], happ.symm⟩, by simp [happ]⟩

theorem getIcons_isPrefix (keys : List String) (f : FlyweightFactory) :
    f._icons <+: (getIcons f keys).2.1._icons := by
  induction keys generalizing f with
  | nil => exact List.prefix_refl _
  | cons name names ih =>
      cases hget : getIcon f name with
      | error e => simp only [getIcons, hget]; exact List.prefix_refl _
      | ok r =>
          obtain ⟨i0, f1⟩ := r
          simp only [getIcons, hget]
          exact List.IsPrefix.trans (getIcon_isPrefix hget).1 (ih f1)

end FlyweightFactory

namespace Equipment

/-! ## Composite: `add`, `getName`, and the reach of `remove` -/

theorem getNetPrice_append_child (id : Int) (n : String) (p : Int) (cs : List Equipment)
    (e : Equipment) :
    (compositeEquipment id n p (cs ++ [e])).getNetPrice
      = addInt (compositeEquipment id n p cs).getNetPrice e.getNetPrice := by
  simp only [getNetPrice, getNetPriceLoop_eq_foldl_map, List.map_append, List.map_cons,
    List.map_nil, List.foldl_append, List.foldl_cons, List.foldl_nil]

/-- C23, the claim as stated fails: a composite priced 2147483647 without children
gets a leaf priced 1 added; `getNetPrice()` is then -2147483648, not 2147483647 + 1. -/
theorem add_price_wraps :
    (compositeEquipment 3 "Base Chassis1.0" 2147483647 []).getNetPrice = 2147483647
      ∧ (floppyDisk 1 "Floppy Disk1" 1).getNetPrice = 1
      ∧ ((compositeEquipment 3 "Base Chassis1.0" 2147483647 []).add
          (floppyDisk 1 "Floppy Disk1" 1)).self.getNetPrice = -2147483648
      ∧ ¬ ((compositeEquipment 3 "Base Chassis1.0" 2147483647 []).add
            (floppyDisk 1 "Floppy Disk1" 1)).self.getNetPrice
          = (compositeEquipment 3 "Base Chassis1.0" 2147483647 []).getNetPrice
            + (floppyDisk 1 "Floppy Disk1" 1).getNetPrice := by
  refine ⟨?_, ?_, ?_, ?_⟩ <;> decide

/-- C23 (amended): for every composite `c` and every equipment `e`, whatever the ids
of `e` and of the children of `c`, `c.add(e)` returns with `e` appended as last child
after the former children in their former order, and `c.getNetPrice()` is then the
former value plus `e.getNetPrice()` in `int` arithmetic, which is exactly their sum
whenever that sum is a value of type `int`. -/
theorem add_appends_last_child (id : Int) (n : String) (p : Int) (cs : List Equipment)
    (e : Equipment) :
    ((compositeEquipment id n p cs).add e).completion = .returned
      ∧ ((compositeEquipment id n p cs).add e).self = compositeEquipment id n p (cs ++ [e])
      ∧ ((compositeEquipment id n p cs).add e).self.children = cs ++ [e]
      ∧ ((compositeEquipment id n p cs).add e).self.getNetPrice
          = addInt (compositeEquipment id n p cs).getNetPrice e.getNetPrice
      ∧ (IsInt ((compositeEquipment id n p cs).getNetPrice + e.getNetPrice) →
          ((compositeEquipment id n p cs).add e).self.getNetPrice
            = (compositeEquipment id n p cs).getNetPrice + e.getNetPrice) := by
  have hprice := getNetPrice_append_child id n p cs e
  refine ⟨rfl, rfl, rfl, hprice, ?_⟩
  intro hfit
  have hadd : ((compositeEquipment id n p cs).add e).self.getNetPrice
      = addInt (compositeEquipment id n p cs).getNetPrice e.getNetPrice := hprice
  rw [hadd, addInt, wrapInt_of_isInt hfit]

/-- The second `add` of `main`, `eq3->add(eq2)`, on a composite that holds `eq1`: the
price goes from 5100 to 5600; and adding `eq1` a second time is accepted. -/
theorem add_in_main :
    ((compositeEquipment 3 "Base Chassis1.0" 5000 [eq1]).add eq2).self.children = [eq1, eq2]
      ∧ ((compositeEquipment 3 "Base Chassis1.0" 5000 [eq1]).add eq2).self.getNetPrice = 5600
      ∧ ((compositeEquipment 3 "Base Chassis1.0" 5000 [eq1]).add eq1).self.children
          = [eq1, eq1] := by
  refine ⟨rfl, by decide, rfl⟩

/-- C25: for every node and every string, `getName` stores the string as the node's
name and leaves the string, the node's id, price and children as they were. So when
`remove` meets the first child with the wanted id, the name it reads for it from its
empty local string is the empty string, written in the removal line, and the child
is destroyed with its stored name cleared. -/
theorem getName_overwrites_name (self : Equipment) (name : String) (id : Int)
    (n : String) (p : Int) (pre rest : List Equipment) (x e : Equipment)
    (hpre : ∀ y ∈ pre, y.getId ≠ e.getId) (hx : x.getId = e.getId) :
    (self.getName name).1.name = name
      ∧ (self.getName name).2 = name
      ∧ (self.getName name).1.getId = self.getId
      ∧ (self.getName name).1.price = self.price
      ∧ (self.getName name).1.children = self.children
      ∧ ((compositeEquipment id n p (pre ++ x :: rest)).remove e).out
          = CompositeEvent.removed e.getId "" :: destroy (x.getName "").1
      ∧ (x.getName "").1.name = "" := by
  have hloop := removeLoop_first_match e.getId pre x rest [] hpre hx
  have hname : (x.getName "").2 = "" := by cases x <;> rfl
  have hid : (x.getName "").1.getId = e.getId := by rw [← hx]; cases x <;> rfl
  refine ⟨by cases self <;> rfl, by cases self <;> rfl, by cases self <;> rfl,
    by cases self <;> rfl, by cases self <;> rfl, ?_, by cases x <;> rfl⟩
  simp only [remove, hloop, hname, hid]

/-- Witness for C25: `eq3->remove` of an equipment with id 2 in `main`'s tree meets
`eq2` ("Floppy Disk2.1") after passing `eq1`. -/
theorem getName_overwrites_name_witness :
    (eq1.getName "Disk").1.name = "Disk"
      ∧ (eq1.getName "Disk").2 = "Disk"
      ∧ (eq1.getName "Disk").1.getId = eq1.getId
      ∧ (eq1.getName "Disk").1.price = eq1.price
      ∧ (eq1.getName "Disk").1.children = eq1.children
      ∧ ((compositeEquipment 3 "Base Chassis1.0" 5000 ([eq1] ++ eq2 :: [])).remove
          (floppyDisk 2 "Floppy Disk2.1" 500)).out
          = CompositeEvent.removed (floppyDisk 2 "Floppy Disk2.1" 500).getId ""
              :: destroy (eq2.getName "").1
      ∧ (eq2.getName "").1.name = "" :=
  getName_overwrites_name eq1 "Disk" 3 "Base Chassis1.0" 5000 [eq1] [] eq2
    (floppyDisk 2 "Floppy Disk2.1" 500) (by decide) (by decide)

/-- C26: for every composite `c` and every equipment `e` whose id is the id of a node
below the direct children of `c` but of no direct child, `c.remove(e)` returns,
writes nothing and leaves `c` as it was: the same tree, the node with that id still
in it, and the same `c.getNetPrice()`. -/
theorem remove_ignores_deeper_nodes (id : Int) (n : String) (p : Int)
    (cs : List Equipment) (e : Equipment)
    (hdeep : e.getId ∈ deeperIds (compositeEquipment id n p cs))
    (hno : ∀ x ∈ cs, x.getId ≠ e.getId) :
    ((compositeEquipment id n p cs).remove e).completion = .returned
      ∧ ((compositeEquipment id n p cs).remove e).self = compositeEquipment id n p cs
      ∧ e.getId ∈ deeperIds ((compositeEquipment id n p cs).remove e).self
      ∧ ((compositeEquipment id n p cs).remove e).self.getNetPrice
          = (compositeEquipment id n p cs).getNetPrice
      ∧ ((compositeEquipment id n p cs).remove e).out = [] := by
  have hloop := removeLoop_of_no_match e.getId cs [] hno
  simp only [List.nil_append] at hloop
  have hself : ((compositeEquipment id n p cs).remove e).self
      = compositeEquipment id n p cs := by
    simp only [remove, hloop]
  refine ⟨?_, hself, ?_, ?_, ?_⟩
  · simp only [remove, hloop]
  · rw [hself]
    exact hdeep
  · rw [hself]
  · simp only [remove, hloop]

/-- Witness for C26: in `main`'s tree the leaf `eq1` (id 1) lies below `eq3`, a direct
child of `eq5`, whose direct children have the ids 3 and 4. -/
theorem remove_ignores_deeper_nodes_witness :
    ((compositeEquipment 5 "Main Chassis2.1" 5000 [eq3, eq4]).remove eq1).completion
        = .returned
      ∧ ((compositeEquipment 5 "Main Chassis2.1" 5000 [eq3, eq4]).remove eq1).self
          = compositeEquipment 5 "Main Chassis2.1" 5000 [eq3, eq4]
      ∧ eq1.getId
          ∈ deeperIds ((compositeEquipment 5 "Main Chassis2.1" 5000 [eq3, eq4]).remove
              eq1).self
      ∧ ((compositeEquipment 5 "Main Chassis2.1" 5000 [eq3, eq4]).remove
          eq1).self.getNetPrice
          = (compositeEquipment 5 "Main Chassis2.1" 5000 [eq3, eq4]).getNetPrice
      ∧ ((compositeEquipment 5 "Main Chassis2.1" 5000 [eq3, eq4]).remove eq1).out = [] :=
  remove_ignores_deeper_nodes 5 "Main Chassis2.1" 5000 [eq3, eq4] eq1 (by decide)
    (by decide)

end Equipment

/-! ## Iterator: equality of stacks -/

theorem addInt_sp_one (s : Stack) (hs : s.Valid) : addInt s.sp 1 = s.sp + 1 := by
  obtain ⟨_, h1, h2⟩ := hs
  unfold addInt wrapInt
  omega

theorem isDone_at (s : Stack) (hs : s.Valid) (i : Nat) :
    StackIter.isDone { stk := s, index := (i : Int) } = true ↔ (i : Int) = s.sp + 1 := by
  simp [StackIter.isDone, addInt_sp_one s hs]

theorem currentItem_at (s : Stack) (hs : s.Valid) (i : Nat) (hi : i < 10) :
    ∃ v, s.items[i]? = some v
      ∧ StackIter.currentItem { stk := s, index := (i : Int) } = .ok v := by
  have hlen : i < s.items.length := by rw [hs.1]; exact hi
  refine ⟨s.items[i], List.getElem?_eq_getElem hlen, ?_⟩
  have h0 : (0 : Int) ≤ (i : Int) := Int.ofNat_nonneg i
  simp [StackIter.currentItem, h0, List.getElem?_eq_getElem hlen]

theorem next_at (s : Stack) (i : Nat) (hi : i < 10) :
    StackIter.next { stk := s, index := (i : Int) }
      = { stk := s, index := ((i + 1 : Nat) : Int) } := by
  have : addInt (i : Int) 1 = ((i + 1 : Nat) : Int) := by
    unfold addInt wrapInt
    omega
  simp [StackIter.next, this]

theorem eqLoop_spec (l r : Stack) (hl : l.Valid) (hr : r.Valid) (n : Nat)
    (hn : (n : Int) = l.sp + 1) :
    ∀ (d i : Nat), i + d = n → ∀ fuel : Nat, d < fuel →
      ∃ k : Nat, i ≤ k ∧ k ≤ n
        ∧ eqLoop fuel { stk := l, index := (i : Int) } { stk := r, index := (i : Int) }
            = some (.ok ({ stk := l, index := (k : Int) }, { stk := r, index := (k : Int) }))
        ∧ (k = n ↔ ∀ j : Nat, i ≤ j → j < n → l.items[j]? = r.items[j]?) := by
  have hn10 : n ≤ 10 := by
    obtain ⟨_, _, h2⟩ := hl
    omega
  intro d
  induction d with
  | zero =>
      intro i hi fuel hfuel
      obtain ⟨fuel, rfl⟩ : ∃ m, fuel = m + 1 := ⟨fuel - 1, by omega⟩
      have hin : i = n := by omega
      subst hin
      have hdone : StackIter.isDone { stk := l, index := (i : Int) } = true :=
        (isDone_at l hl i).mpr hn
      refine ⟨i, le_refl _, le_refl _, ?_, ?_⟩
      · simp [eqLoop, hdone]
      · constructor
        · intro _ j hij hjn
          omega
        · intro _
          rfl
  | succ d ih =>
      intro i hi fuel hfuel
      obtain ⟨fuel, rfl⟩ : ∃ m, fuel = m + 1 := ⟨fuel - 1, by omega⟩
      have hlt : i < n := by omega
      have hi10 : i < 10 := by omega
      have hnot : ¬ (StackIter.isDone { stk := l, index := (i : Int) } = true) := by
        rw [isDone_at l hl i]
        omega
      obtain ⟨a, ha, hca⟩ := currentItem_at l hl i hi10
      obtain ⟨b, hb, hcb⟩ := currentItem_at r hr i hi10
      by_cases hab : a = b
      · obtain ⟨k, hik, hkn, hloop, hiff⟩ := ih (i + 1) (by omega) fuel (by omega)
        refine ⟨k, by omega, hkn, ?_, ?_⟩
        · simp only [eqLoop, hnot, if_false, hca, hcb, hab, ne_eq, not_true_eq_false,
            next_at l i hi10, next_at r i hi10]
          exact hloop
        · rw [hiff]
          constructor
          · intro h j hij hjn
            by_cases hji : j = i
            · subst hji
              rw [ha, hb, hab]
            · exact h j (by omega) hjn
          · intro h j hij hjn
            exact h j (by omega) hjn
      · refine ⟨i, le_refl _, by omega, ?_, ?_⟩
        · simp [eqLoop, hnot, hca, hcb, hab]
        · constructor
          · intro h
            omega
          · intro h
            have := h i (le_refl _) hlt
            rw [ha, hb] at this
            exact absurd (Option.some.inj this) hab

/-- What `operator==` returns: with fuel for eleven tests of the loop condition the
call returns, and it returns true exactly when both stacks have the same top index
and hold equal values in all slots up to it. -/
theorem operatorEq_spec (l r : Stack) (hl : l.Valid) (hr : r.Valid) (fuel : Nat)
    (hfuel : 10 < fuel) :
    ∃ b : Bool, operatorEq fuel l r = some (.ok b)
      ∧ (b = true ↔ l.sp = r.sp
          ∧ ∀ j : Nat, (j : Int) ≤ l.sp → l.items[j]? = r.items[j]?) := by
  obtain ⟨n, hn⟩ : ∃ n : Nat, (n : Int) = l.sp + 1 := by
    obtain ⟨_, h1, _⟩ := hl
    exact ⟨(l.sp + 1).toNat, by omega⟩
  have hn10 : n ≤ 10 := by
    obtain ⟨_, _, h2⟩ := hl
    omega
  obtain ⟨k, _, hkn, hloop, hiff⟩ := eqLoop_spec l r hl hr n hn n 0 (by omega) fuel (by omega)
  have hstart : eqLoop fuel l.createIterator.first r.createIterator.first
      = some (.ok ({ stk := l, index := (k : Int) }, { stk := r, index := (k : Int) })) := by
    simpa [Stack.createIterator, StackIter.first] using hloop
  refine ⟨StackIter.isDone { stk := l, index := (k : Int) }
      && StackIter.isDone { stk := r, index := (k : Int) }, ?_, ?_⟩
  · simp only [operatorEq, hstart]
  · rw [Bool.and_eq_true, isDone_at l hl k, isDone_at r hr k, ← hn]
    constructor
    · rintro ⟨hk, hkr⟩
      have hkn1 : k = n := by omega
      refine ⟨by omega, ?_⟩
      intro j hj
      exact (hiff.mp hkn1) j (Nat.zero_le _) (by omega)
    · rintro ⟨hsp, hall⟩
      have hkn1 : k = n := by
        rw [hiff]
        intro j _ hjn
        exact hall j (by omega)
      constructor <;> omega

theorem operatorEq_true (l r : Stack) (hl : l.Valid) (hr : r.Valid) (fuel : Nat)
    (hfuel : 10 < fuel) (hsp : l.sp = r.sp)
    (hall : ∀ j : Nat, (j : Int) ≤ l.sp → l.items[j]? = r.items[j]?) :
    operatorEq fuel l r = some (.ok true) := by
  obtain ⟨b, hb, hiff⟩ := operatorEq_spec l r hl hr fuel hfuel
  rw [hb, hiff.mpr ⟨hsp, hall⟩]

theorem operatorEq_false (l r : Stack) (hl : l.Valid) (hr : r.Valid) (fuel : Nat)
    (hfuel : 10 < fuel)
    (hne : ¬ (l.sp = r.sp ∧ ∀ j : Nat, (j : Int) ≤ l.sp → l.items[j]? = r.items[j]?)) :
    operatorEq fuel l r = some (.ok false) := by
  obtain ⟨b, hb, hiff⟩ := operatorEq_spec l r hl hr fuel hfuel
  cases b with
  | false => exact hb
  | true => exact absurd (hiff.mp rfl) hne

theorem operatorEq_main (fuel : Nat) (hfuel : 10 < fuel) (u : List Int)
    (hu : u.length = 10) :
    ∃ s1 s2 s3 s4 s5 : Stack, mainStacks u = .ok (s1, s2, s3, s4, s5)
      ∧ operatorEq fuel s1 s2 = some (.ok true)
      ∧ operatorEq fuel s1 s3 = some (.ok false)
      ∧ operatorEq fuel s1 s4 = some (.ok false)
      ∧ operatorEq fuel s1 s5 = some (.ok false) := by
  match u, hu with
  | [a0, a1, a2, a3, a4, a5, a6, a7, a8, a9], _ =>
      have v1 : Stack.Valid { items := [1, 2, 3, 4, a4, a5, a6, a7, a8, a9], sp := 3 } := by
        simp [Stack.Valid, Stack.ITEMS]
      have v3 : Stack.Valid { items := [1, 2, 3, 4, a4, a5, a6, a7, a8, a9], sp := 2 } := by
        simp [Stack.Valid, Stack.ITEMS]
      have v4 : Stack.Valid { items := [1, 2, 3, 4, 2, a5, a6, a7, a8, a9], sp := 4 } := by
        simp [Stack.Valid, Stack.ITEMS]
      have v5 : Stack.Valid { items := [1, 2, 3, 9, a4, a5, a6, a7, a8, a9], sp := 3 } := by
        simp [Stack.Valid, Stack.ITEMS]
      refine ⟨{ items := [1, 2, 3, 4, a4, a5, a6, a7, a8, a9], sp := 3 },
        { items := [1, 2, 3, 4, a4, a5, a6, a7, a8, a9], sp := 3 },
        { items := [1, 2, 3, 4, a4, a5, a6, a7, a8, a9], sp := 2 },
        { items := [1, 2, 3, 4, 2, a5, a6, a7, a8, a9], sp := 4 },
        { items := [1, 2, 3, 9, a4, a5, a6, a7, a8, a9], sp := 3 }, rfl, ?_, ?_, ?_, ?_⟩
      · exact operatorEq_true _ _ v1 v1 fuel hfuel rfl (fun _ _ => rfl)
      · apply operatorEq_false _ _ v1 v3 fuel hfuel
        intro h
        have h1 : (3 : Int) = 2 := h.1
        omega
      · apply operatorEq_false _ _ v1 v4 fuel hfuel
        intro h
        have h1 : (3 : Int) = 4 := h.1
        omega
      · apply operatorEq_false _ _ v1 v5 fuel hfuel
        intro h
        have h3 : ((3 : Nat) : Int) ≤ (3 : Int) := by omega
        have := h.2 3 h3
        simp at this

/-- C28: on the chain `root` -> `two` -> `thr` of `main`, `handle(1)` is handled by
handler 1, `handle(2)` is passed by handler 1 and handled by handler 2, `handle(3)`
is passed by the handlers 1 and 2 and handled by handler 3, each request handled
once; for every other `i` the three handlers pass the request in order and the
`Base::handle` of the last one calls `handle` through its null `next`, so that no
handler handles the request and the call does not return. -/
theorem chain_of_main (i : Int) :
    Base.root
        = Base.mk HandlerClass.Handler1
            (some (Base.mk HandlerClass.Handler2
              (some (Base.mk HandlerClass.Handler3 none))))
      ∧ Base.root.handle 1 = ([HandlerEvent.handled 1 1], HandleEnd.returned)
      ∧ Base.root.handle 2
          = ([HandlerEvent.passed 1 2, HandlerEvent.handled 2 2], HandleEnd.returned)
      ∧ Base.root.handle 3
          = ([HandlerEvent.passed 1 3, HandlerEvent.passed 2 3, HandlerEvent.handled 3 3],
              HandleEnd.returned)
      ∧ (i ≠ 1 → i ≠ 2 → i ≠ 3 →
          Base.root.handle i
            = ([HandlerEvent.passed 1 i, HandlerEvent.passed 2 i, HandlerEvent.passed 3 i],
                HandleEnd.nullDereference)) := by
  refine ⟨rfl, by decide, by decide, by decide, ?_⟩
  intro h1 h2 h3
  have e1 : (1 : Int) ≠ i := fun e => h1 e.symm
  have e2 : (2 : Int) ≠ i := fun e => h2 e.symm
  have e3 : (3 : Int) ≠ i := fun e => h3 e.symm
  simp [Base.root, Base.two, Base.thr, Base.new, Base.setNext, Base.handle, Base.forward,
    e1, e2, e3]

/-- Witness for C28: the request 7, which no handler of the chain handles. -/
theorem chain_of_main_witness :
    Base.root.handle 7
      = ([HandlerEvent.passed 1 7, HandlerEvent.passed 2 7, HandlerEvent.passed 3 7],
          HandleEnd.nullDereference) :=
  (chain_of_main 7).2.2.2.2 (by decide) (by decide) (by decide)

namespace FacilitiesFacade

/-! ## Facade: the polling loop of `main` -/

theorem poll_add_fuel (fuel extra : Nat) (self : FacilitiesFacade)
    (r : FacilitiesFacade × List FacadeEvent) (h : poll fuel self = some r) :
    poll (fuel + extra) self = some r := by
  induction fuel generalizing self r with
  | zero => simp [poll] at h
  | succ fuel ih =>
      have hsucc : fuel + 1 + extra = (fuel + extra) + 1 := by omega
      rw [hsucc]
      obtain ⟨answer, after, out, hcheck⟩ : ∃ answer after out,
          self.checkOnStatus = (answer, after, out) := ⟨_, _, _, rfl⟩
      cases answer with
      | true =>
          simp only [poll, hcheck] at h ⊢
          exact h
      | false =>
          simp only [poll, hcheck] at h ⊢
          cases hrest : poll fuel after with
          | none => simp [hrest] at h
          | some q =>
              rw [ih after q hrest]
              simpa [hrest] using h

set_option maxRecDepth 8192 in
theorem poll_35 (state engineer electrician technician : Int) :
    poll 35 (FacilitiesFacade.new state engineer electrician technician).submitNetworkRequest
      = some ({ _state := 3, _count := 35, _engineer := { _state := 11 },
                _electrician := { _state := 13 }, _technician := { _state := 10 } },
          [FacadeEvent.submittedToFacilities 1, FacadeEvent.submittedToElectrician 12,
            FacadeEvent.submittedToMIS 25]) := by
  rfl

set_option maxRecDepth 8192 in
theorem poll_34 (state engineer electrician technician : Int) :
    poll 34 (FacilitiesFacade.new state engineer electrician technician).submitNetworkRequest
      = none := by
  rfl

set_option maxRecDepth 8192 in
theorem checkTimes_35 (state engineer electrician technician : Int) :
    checkTimes 35
        (FacilitiesFacade.new state engineer electrician technician).submitNetworkRequest
      = (List.replicate 34 false ++ [true],
          { _state := 3, _count := 35, _engineer := { _state := 11 },
            _electrician := { _state := 13 }, _technician := { _state := 10 } }) := by
  rfl

/-- C29: for a fresh `FacilitiesFacade` after `submitNetworkRequest()`, whatever its
unwritten members held, `checkOnStatus()` returns false on each of the first 34 calls
and true on the 35th. The polling loop of `main` therefore ends (35 calls suffice)
with `getNumberOfCalls()` = 35, having written the hand-over to Facilities at call 1,
to the electrician at call 12 and to MIS at call 25: 1 call, then 11, 13 and 10 calls
for the three subsystems, whose `Complete` enumerators have the values 11, 13, 10. -/
theorem polling_ends_after_35_calls (state engineer electrician technician : Int)
    (fuel : Nat) :
    (checkTimes 35
        (FacilitiesFacade.new state engineer electrician
          technician).submitNetworkRequest).1 = List.replicate 34 false ++ [true]
      ∧ (checkTimes 35
          (FacilitiesFacade.new state engineer electrician
            technician).submitNetworkRequest).2.getNumberOfCalls = 35
      ∧ (∃ last : FacilitiesFacade,
          poll (35 + fuel)
              (FacilitiesFacade.new state engineer electrician
                technician).submitNetworkRequest
            = some (last,
                [FacadeEvent.submittedToFacilities 1, FacadeEvent.submittedToElectrician 12,
                  FacadeEvent.submittedToMIS 25])
          ∧ last.getNumberOfCalls = 35)
      ∧ poll 34
          (FacilitiesFacade.new state engineer electrician
            technician).submitNetworkRequest = none
      ∧ FacilitiesDepartment.States.Complete.value = 11
      ∧ ElectricianUnion.States.Complete.value = 13
      ∧ MisDepartment.States.Complete.value = 10 := by
  have h35 := poll_35 state engineer electrician technician
  have hc := checkTimes_35 state engineer electrician technician
  refine ⟨by rw [hc], by rw [hc]; rfl, ⟨_, poll_add_fuel 35 fuel _ _ h35, rfl⟩, ?_,
    by decide, by decide, by decide⟩
  exact poll_34 state engineer electrician technician

end FacilitiesFacade

end Demo1
